import Mathlib

/-!
Verification of the Crubit IR importer (`rs_bindings_from_cc/importer.cc`).

This file gives a shallow embedding of the importer into Lean: the data
model (IR items, mapped types, lookup results), the type mapper
(`Importer::ConvertType`), the declaration importers
(`ImportFunction`, `ImportRecord`, `ImportTypedefName`, `ImportFields`),
the owner resolver (`Importer::GetOwningTarget`), the memoizing walker
(`LookupDecl` / `ImportDecl` / `ImportDeclsFromDeclContext`) and the
item assembly and sorting done by `Importer::Import`.

Conventions of the embedding:
* Frontend queries (spellings from `QualType::getAsString`, record
  layouts, mangled names, raw comments, special-member summaries, the
  lifetime-inference oracle's output) are modelled as data carried on
  the declaration records: they are inputs of the importer, computed by
  clang, not by the code under verification.
* A `clang::QualType` is modelled by the view the importer takes of it:
  one constructor per branch of `ConvertType`'s `getAs` chain, plus the
  two spellings the importer asks clang for (`uspell` is
  `getUnqualifiedType().getAsString()`, `qspell` is `getAsString()`).
* `CHECK` / `LOG(FATAL)` failures abort the process; importers that can
  reach one return an `Option`, with `none` for the aborted run.
* Hash containers (`lookup_cache_`, `known_type_decls_`) become
  association lists / lists used as sets; `absl::flat_hash_map::insert`
  keeps the existing entry for a present key, which `insertNewEntry`
  mirrors.
-/

namespace Crubit

/-- Builtin kinds distinguished by `ConvertType`'s switch over
`clang::BuiltinType::getKind()`; integer builtins carry signedness and
the bit width that `ASTContext::getTypeSize` reports for them. -/
inductive BuiltinKind where
  | boolKind
  | floatKind
  | doubleKind
  | voidKind
  | integer (signed : Bool) (size : Nat)
  | otherBuiltin
deriving DecidableEq, Repr

/-- A `clang::QualType` as seen through the queries `ConvertType` makes:
which `getAs` / `getAsAdjusted` branch fires, the const qualifier, and
the two spellings (`uspell` = `getUnqualifiedType().getAsString()`,
`qspell` = `getAsString()`). A typedef of a pointer type is a `pointer`
here because `getAs<PointerType>` desugars it, while a typedef of a
builtin is a `typedefType` because `getAsAdjusted` does not. -/
inductive QualType where
  | builtin (k : BuiltinKind) (isConst : Bool) (uspell qspell : String)
  | pointer (pointee : QualType) (isConst : Bool) (uspell qspell : String)
  | lvalueRef (pointee : QualType) (isConst : Bool) (uspell qspell : String)
  | tagType (declId : Nat) (isConst : Bool) (uspell qspell : String)
  | typedefType (declId : Nat) (isConst : Bool) (uspell qspell : String)
  | otherType (isConst : Bool) (uspell qspell : String)
deriving DecidableEq, Repr

/-- `getUnqualifiedType().getAsString()` of the modelled type. -/
def QualType.uspell : QualType → String
  | .builtin _ _ u _ => u
  | .pointer _ _ u _ => u
  | .lvalueRef _ _ u _ => u
  | .tagType _ _ u _ => u
  | .typedefType _ _ u _ => u
  | .otherType _ u _ => u

/-- `getAsString()` of the modelled type (with qualifiers). -/
def QualType.qspell : QualType → String
  | .builtin _ _ _ q => q
  | .pointer _ _ _ q => q
  | .lvalueRef _ _ _ q => q
  | .tagType _ _ _ q => q
  | .typedefType _ _ _ q => q
  | .otherType _ _ q => q

/-- `isConstQualified()` of the modelled type. -/
def QualType.isConst : QualType → Bool
  | .builtin _ c _ _ => c
  | .pointer _ c _ _ => c
  | .lvalueRef _ c _ _ => c
  | .tagType _ c _ _ => c
  | .typedefType _ c _ _ => c
  | .otherType c _ _ => c

/-- The `kWellKnownTypes` table of `importer.cc`: C++ spellings mapped
to their fixed Rust equivalents. -/
def wellKnownTypes : List (String × String) :=
  [("ptrdiff_t", "isize"),
   ("intptr_t", "isize"),
   ("size_t", "usize"),
   ("uintptr_t", "usize"),
   ("std::ptrdiff_t", "isize"),
   ("std::intptr_t", "isize"),
   ("std::size_t", "usize"),
   ("std::uintptr_t", "usize"),
   ("int8_t", "i8"),
   ("int16_t", "i16"),
   ("int32_t", "i32"),
   ("int64_t", "i64"),
   ("std::int8_t", "i8"),
   ("std::int16_t", "i16"),
   ("std::int32_t", "i32"),
   ("std::int64_t", "i64"),
   ("uint8_t", "u8"),
   ("uint16_t", "u16"),
   ("uint32_t", "u32"),
   ("uint64_t", "u64"),
   ("std::uint8_t", "u8"),
   ("std::uint16_t", "u16"),
   ("std::uint32_t", "u32"),
   ("std::uint64_t", "u64"),
   ("char16_t", "u16"),
   ("char32_t", "u32"),
   ("wchar_t", "i32")]

/-- A `MappedType` of the IR: paired C++-side / Rust-side representation.
`ccConst` is the `cc_type.is_const` flag that `ConvertType` sets at the
end from the original qualifier. -/
inductive MappedType where
  | voidTy (ccConst : Bool)
  | simple (rsName ccName : String) (ccConst : Bool)
  | pointerTo (pointee : MappedType) (lifetime : Option Nat) (nullable : Bool)
      (ccConst : Bool)
  | lvalueRefTo (pointee : MappedType) (lifetime : Option Nat) (ccConst : Bool)
  | withDeclIds (rsName : String) (rsId : Nat) (ccName : String) (ccId : Nat)
      (ccConst : Bool)
deriving DecidableEq, Repr

/-- `type->cc_type.is_const = ...`: replace the outermost const flag. -/
def MappedType.setCcConst : MappedType → Bool → MappedType
  | .voidTy _, c => .voidTy c
  | .simple r cc _, c => .simple r cc c
  | .pointerTo p l n _, c => .pointerTo p l n c
  | .lvalueRefTo p l _, c => .lvalueRefTo p l c
  | .withDeclIds r ri cc ci _, c => .withDeclIds r ri cc ci c

/-- All lifetime ids mentioned in a `MappedType`, outermost first. -/
def MappedType.lifetimeIds : MappedType → List Nat
  | .pointerTo p (some l) _ _ => l :: p.lifetimeIds
  | .pointerTo p none _ _ => p.lifetimeIds
  | .lvalueRefTo p (some l) _ => l :: p.lifetimeIds
  | .lvalueRefTo p none _ => p.lifetimeIds
  | _ => []

/-- The fixed environment the importer reads but never writes: the
current target label and, for tag/typedef declarations, the oracles
behind `GetTranslatedIdentifier`, `dyn_cast<RecordDecl>` and
`RecordDecl::canPassInRegisters`, keyed by canonical declaration id. -/
structure Env where
  currentTarget : String
  translatedId : Nat → Option String
  isRecordDecl : Nat → Bool
  canPassInRegisters : Nat → Bool

/-- An error of `ConvertType`: either the `absl::UnimplementedError`
with its message and the `type` status payload, or a `CHECK` failure
(the lifetime stack was empty at a pointer level). -/
inductive ConvError where
  | unsupported (msg : String) (payload : String)
  | fatalErr
deriving DecidableEq, Repr

/-- The body of `Importer::ConvertType` up to (not including) the final
error construction and const handling: `.ok none` models falling
through with `type == std::nullopt`, `.error ()` models a `CHECK`
failure inside this call or a recursive one. The case order is the
source's: well-known table, pointer, lvalue reference, builtin, tag,
typedef. -/
def convertTypeCore (env : Env) (known : List Nat) :
    QualType → Option (List Nat) → Bool → Except Unit (Option MappedType)
  | .pointer pointee _ u _, lifetimes, nullable =>
    match List.lookup u wellKnownTypes with
    | some rsName => .ok (some (.simple rsName u false))
    | none =>
      match lifetimes with
      | some ls =>
        match ls.getLast? with
        | none => .error ()
        | some lt =>
          match convertTypeCore env known pointee (some ls.dropLast) true with
          | .error e => .error e
          | .ok none => .ok none
          | .ok (some p) =>
            .ok (some (.pointerTo (p.setCcConst pointee.isConst) (some lt)
              nullable false))
      | none =>
        match convertTypeCore env known pointee none true with
        | .error e => .error e
        | .ok none => .ok none
        | .ok (some p) =>
          .ok (some (.pointerTo (p.setCcConst pointee.isConst) none nullable
            false))
  | .lvalueRef pointee _ u _, lifetimes, _ =>
    match List.lookup u wellKnownTypes with
    | some rsName => .ok (some (.simple rsName u false))
    | none =>
      match lifetimes with
      | some ls =>
        match ls.getLast? with
        | none => .error ()
        | some lt =>
          match convertTypeCore env known pointee (some ls.dropLast) true with
          | .error e => .error e
          | .ok none => .ok none
          | .ok (some p) =>
            .ok (some (.lvalueRefTo (p.setCcConst pointee.isConst) (some lt)
              false))
      | none =>
        match convertTypeCore env known pointee none true with
        | .error e => .error e
        | .ok none => .ok none
        | .ok (some p) =>
          .ok (some (.lvalueRefTo (p.setCcConst pointee.isConst) none false))
  | .builtin k _ u _, _, _ =>
    match List.lookup u wellKnownTypes with
    | some rsName => .ok (some (.simple rsName u false))
    | none =>
      match k with
      | .boolKind => .ok (some (.simple "bool" "bool" false))
      | .floatKind => .ok (some (.simple "f32" "float" false))
      | .doubleKind => .ok (some (.simple "f64" "double" false))
      | .voidKind => .ok (some (.voidTy false))
      | .integer signed size =>
        if size = 8 ∨ size = 16 ∨ size = 32 ∨ size = 64 then
          .ok (some (.simple ((if signed then "i" else "u") ++ toString size)
            u false))
        else .ok none
      | .otherBuiltin => .ok none
  | .tagType declId _ u _, _, _ =>
    match List.lookup u wellKnownTypes with
    | some rsName => .ok (some (.simple rsName u false))
    | none =>
      if known.contains declId then
        match env.translatedId declId with
        | some id => .ok (some (.withDeclIds id declId id declId false))
        | none => .ok none
      else .ok none
  | .typedefType declId _ u _, _, _ =>
    match List.lookup u wellKnownTypes with
    | some rsName => .ok (some (.simple rsName u false))
    | none =>
      if known.contains declId then
        match env.translatedId declId with
        | some id => .ok (some (.withDeclIds id declId id declId false))
        | none => .ok none
      else .ok none
  | .otherType _ u _, _, _ =>
    match List.lookup u wellKnownTypes with
    | some rsName => .ok (some (.simple rsName u false))
    | none => .ok none

/-- `Importer::ConvertType`: the core, then the fall-through
`UnimplementedError` carrying the unqualified spelling as payload, then
`cc_type.is_const` from the original qualifier. -/
def convertType (env : Env) (known : List Nat) (qt : QualType)
    (lifetimes : Option (List Nat)) (nullable : Bool) :
    Except ConvError MappedType :=
  match convertTypeCore env known qt lifetimes nullable with
  | .error _ => .error .fatalErr
  | .ok none =>
    .error (.unsupported ("Unsupported type '" ++ qt.uspell ++ "'") qt.uspell)
  | .ok (some t) => .ok (t.setCcConst qt.isConst)

/-- The kind of a `clang::DeclarationName`, as far as
`GetTranslatedName` distinguishes it. -/
inductive DeclName where
  | identName (s : String)
  | ctorName
  | dtorName
  | otherName
deriving DecidableEq, Repr

/-- An IR `UnqualifiedIdentifier`: an identifier or one of the
`Constructor` / `Destructor` sentinels. -/
inductive UnqualifiedIdentifier where
  | ident (s : String)
  | ctor
  | dtor
deriving DecidableEq, Repr

/-- `Importer::GetTranslatedName`: identifiers pass through, an empty
identifier of a parameter becomes `__param_<index>` (the parameter's
function-scope index), constructors and destructors become the
sentinels, any other name kind is unsupported. `paramIndex` is `some i`
exactly when the declaration is a `ParmVarDecl`. -/
def getTranslatedName (name : DeclName) (paramIndex : Option Nat) :
    Option UnqualifiedIdentifier :=
  match name with
  | .identName s =>
    if s = "" then
      match paramIndex with
      | some i => some (.ident ("__param_" ++ toString i))
      | none => none
    else some (.ident s)
  | .ctorName => some .ctor
  | .dtorName => some .dtor
  | .otherName => none

/-- `Importer::GetTranslatedIdentifier` for declarations whose name is a
plain identifier (fields): the translated name when it is an
identifier. Declared in `importer.h`; derived from `GetTranslatedName`,
restricted to the identifier variant. -/
def translateIdentifier (s : String) : Option String :=
  match getTranslatedName (.identName s) none with
  | some (.ident t) => some t
  | _ => none

/-- A member access specifier (`clang::AccessSpecifier`); `noneAcc` is
`AS_none`, which field import replaces with the record default. -/
inductive AccessSpecifier where
  | publicAcc
  | protectedAcc
  | privateAcc
  | noneAcc
deriving DecidableEq, Repr

/-- The summary an external `ast_convert` helper computes for a special
member function. Opaque to the importer: it is copied into the
`Record` item unchanged. -/
inductive SpecialMemberFunc where
  | trivialFn
  | nontrivialFn
  | deletedFn
  | notDeclaredFn
deriving DecidableEq, Repr

/-- A source location as the IR stores it (`ConvertSourceLocation`
output; the filename/line/column are frontend data). -/
structure SourceLoc where
  filename : String
  line : Nat
  column : Nat
deriving DecidableEq, Repr

/-- A `clang::FieldDecl` as the field importer queries it: name,
attached raw-comment result, type, access, and the bit offset that
`ASTRecordLayout::getFieldOffset` reports. -/
structure FieldDecl where
  name : String
  docComment : Option String
  type : QualType
  access : AccessSpecifier
  offset : Nat
deriving DecidableEq, Repr

/-- An IR `Field`. -/
structure FieldIR where
  identifier : String
  docComment : Option String
  type : MappedType
  access : AccessSpecifier
  offset : Nat
deriving DecidableEq, Repr

/-- An IR `Lifetime`: human-readable name plus numeric id. -/
structure LifetimeIR where
  name : String
  id : Nat
deriving DecidableEq, Repr

/-- An IR `FuncParam`: a mapped type plus an identifier. -/
structure FuncParam where
  type : MappedType
  identifier : String
deriving DecidableEq, Repr

/-- The reference qualification recorded in instance-method metadata. -/
inductive RefQualification where
  | unqualified
  | lvalueQual
  | rvalueQual
deriving DecidableEq, Repr

/-- IR `MemberFuncMetadata::InstanceMethodMetadata`. -/
structure InstanceMethodMetadata where
  reference : RefQualification
  isConst : Bool
  isVirtual : Bool
  isExplicitCtor : Bool
deriving DecidableEq, Repr

/-- IR `MemberFuncMetadata`. -/
structure MemberFuncMetadata where
  recordId : Nat
  instanceMethodMetadata : Option InstanceMethodMetadata
deriving DecidableEq, Repr

/-- An IR `Func` item, with the fields `ImportFunction` fills in. -/
structure FuncIR where
  name : UnqualifiedIdentifier
  owningTarget : String
  docComment : Option String
  mangledName : String
  returnType : MappedType
  params : List FuncParam
  lifetimeParams : List LifetimeIR
  isInline : Bool
  memberFuncMetadata : Option MemberFuncMetadata
  sourceLoc : SourceLoc
deriving DecidableEq, Repr

/-- An IR `Record` item, with the fields `ImportRecord` fills in. -/
structure RecordIR where
  identifier : String
  id : Nat
  owningTarget : String
  docComment : Option String
  fields : List FieldIR
  size : Nat
  alignment : Nat
  copyConstructor : SpecialMemberFunc
  moveConstructor : SpecialMemberFunc
  destructor : SpecialMemberFunc
  isTrivialAbi : Bool
  isFinal : Bool
deriving DecidableEq, Repr

/-- An IR `TypeAlias` item. -/
structure TypeAliasIR where
  identifier : String
  id : Nat
  owningTarget : String
  underlyingType : MappedType
deriving DecidableEq, Repr

/-- An IR `UnsupportedItem`. -/
structure UnsupportedItemIR where
  name : String
  message : String
  sourceLoc : SourceLoc
deriving DecidableEq, Repr

/-- An IR `Comment` item. -/
structure CommentIR where
  text : String
deriving DecidableEq, Repr

/-- A tagged IR item (`IR::Item`). -/
inductive Item where
  | funcItem (f : FuncIR)
  | recordItem (r : RecordIR)
  | typeAliasItem (t : TypeAliasIR)
  | unsupportedItem (u : UnsupportedItemIR)
  | commentItem (c : CommentIR)
deriving DecidableEq, Repr

/-- An `Importer::LookupResult`: an optional item plus error strings.
The source constructors are the empty result (silent skip), a single
error, an error vector, and an item. -/
structure LookupResult where
  item : Option Item
  errors : List String
deriving DecidableEq, Repr

/-- `LookupResult()`. -/
def LookupResult.skip : LookupResult := ⟨none, []⟩

/-- `LookupResult(error_string)`. -/
def LookupResult.err (s : String) : LookupResult := ⟨none, [s]⟩

/-- `LookupResult(errors_vector)`. -/
def LookupResult.errs (es : List String) : LookupResult := ⟨none, es⟩

/-- `LookupResult(item)`. -/
def LookupResult.ofItem (i : Item) : LookupResult := ⟨some i, []⟩

/-- The result of `Importer::ImportFields`: a `CHECK`-aborted run, the
`UnimplementedError` of the first failing field, or the field list. -/
inductive FieldsResult where
  | fatal
  | err (msg : String)
  | ok (fields : List FieldIR)
deriving DecidableEq, Repr

/-- `Importer::ImportFields`: convert each field in declaration order;
the first failure aborts with its message. Field types are converted
with no lifetimes and default nullability. -/
def importFields (env : Env) (known : List Nat)
    (defaultAccess : AccessSpecifier) : List FieldDecl → FieldsResult
  | [] => .ok []
  | f :: rest =>
    match convertType env known f.type none true with
    | .error .fatalErr => .fatal
    | .error (.unsupported _ _) =>
      .err ("Field type '" ++ f.type.qspell ++ "' is not supported")
    | .ok t =>
      let access := if f.access = .noneAcc then defaultAccess else f.access
      match translateIdentifier f.name with
      | none => .err ("Cannot translate name for field '" ++ f.name ++ "'")
      | some fieldName =>
        match importFields env known defaultAccess rest with
        | .fatal => .fatal
        | .err m => .err m
        | .ok fs =>
          .ok (⟨fieldName, f.docComment, t, access, f.offset⟩ :: fs)

/-- The kind of declaration context a declaration lives in, as far as
the importer queries it (`isFunctionOrMethod`, `isRecord`,
`isNamespace`). -/
inductive DeclContextKind where
  | translationUnit
  | namespaceCtx
  | recordCtx
  | functionOrMethodCtx
deriving DecidableEq, Repr

/-- A `clang::RecordDecl` as `ImportRecord` queries it. `definitionOk`
packages `getDefinition() != nullptr && !isInvalidDecl() &&
isCompleteDefinition()`; layout numbers, special-member summaries, the
doc comment and the owning target are frontend data carried on the
declaration. -/
structure RecordDecl where
  id : Nat
  ctxKind : DeclContextKind
  isInjectedClassName : Bool
  isUnion : Bool
  definitionOk : Bool
  isCxxRecord : Bool
  isClassTemplateOrSpec : Bool
  isClass : Bool
  isEffectivelyFinal : Bool
  fields : List FieldDecl
  size : Nat
  alignment : Nat
  copyCtor : SpecialMemberFunc
  moveCtor : SpecialMemberFunc
  dtor : SpecialMemberFunc
  canPassInRegisters : Bool
  docComment : Option String
  owningTarget : String
deriving Repr

/-- `known_type_decls_.insert(d)` on the list-as-set model. -/
def insertKnown (known : List Nat) (d : Nat) : List Nat :=
  if known.contains d then known else d :: known

/-- `known_type_decls_.erase(d)` on the list-as-set model. -/
def eraseKnown (known : List Nat) (d : Nat) : List Nat :=
  known.filter (fun x => x != d)

/-- `Importer::ImportRecord`. The state it threads is
`known_type_decls_`; it provisionally inserts the record before
importing fields and erases it again when a field fails. `none` models
an aborted run (unreachable here, since field conversion passes no
lifetimes). -/
def importRecord (env : Env) (known : List Nat) (rd : RecordDecl) :
    Option (List Nat × LookupResult) :=
  if rd.ctxKind = .functionOrMethodCtx then some (known, .skip)
  else if rd.isInjectedClassName then some (known, .skip)
  else if rd.ctxKind = .recordCtx then
    some (known, .err "Nested classes are not supported yet")
  else if rd.isUnion then some (known, .err "Unions are not supported yet")
  else if ¬ rd.definitionOk then some (known, .skip)
  else if rd.isCxxRecord ∧ rd.isClassTemplateOrSpec then
    some (known, .err "Class templates are not supported yet")
  else
    let defaultAccess : AccessSpecifier :=
      if rd.isCxxRecord ∧ rd.isClass then .privateAcc else .publicAcc
    let isFinal := if rd.isCxxRecord then rd.isEffectivelyFinal else true
    match env.translatedId rd.id with
    | none => some (known, .skip)
    | some recordName =>
      let known1 := insertKnown known rd.id
      match importFields env known1 defaultAccess rd.fields with
      | .fatal => none
      | .err _ => some (eraseKnown known1 rd.id, .err "Importing field failed")
      | .ok fs =>
        some (known1, .ofItem (.recordItem
          { identifier := recordName
            id := rd.id
            owningTarget := rd.owningTarget
            docComment := rd.docComment
            fields := fs
            size := rd.size
            alignment := rd.alignment
            copyConstructor := rd.copyCtor
            moveConstructor := rd.moveCtor
            destructor := rd.dtor
            isTrivialAbi := rd.canPassInRegisters
            isFinal := isFinal }))

/-- The lifetime-inference oracle's `FunctionLifetimes` bundle. -/
structure FunctionLifetimes where
  thisLifetimes : List Nat
  paramLifetimes : List (List Nat)
  returnLifetimes : List Nat
deriving DecidableEq, Repr

/-- The `CXXMethodDecl` facet of a function declaration, as
`ImportFunction` queries it. `parentId` is the canonical declaration id
of the owning record; `isExplicit` is the constructor's explicitness
(consulted only for constructors). -/
structure MethodInfo where
  parentId : Nat
  isInstance : Bool
  thisType : QualType
  access : AccessSpecifier
  refQualifier : RefQualification
  isConst : Bool
  isVirtual : Bool
  isExplicit : Bool
deriving DecidableEq, Repr

/-- A `clang::ParmVarDecl` as queried: name and type. The
function-scope index is its position in the parameter list. -/
structure ParamDecl where
  name : String
  type : QualType
deriving DecidableEq, Repr

/-- A `clang::FunctionDecl` as `ImportFunction` queries it. The
lifetime oracle's verdict (`lifetimes`, `none` when
`GetLifetimeAnnotations` failed) and its symbol table
(`lifetimeNames`) are frontend data carried on the declaration, as are
the mangled name, the doc comment and the owning target. -/
structure FunctionDecl where
  id : Nat
  ctxKind : DeclContextKind
  owningTarget : String
  isDeleted : Bool
  isTemplated : Bool
  lifetimes : Option FunctionLifetimes
  lifetimeNames : List (Nat × String)
  method : Option MethodInfo
  params : List ParamDecl
  returnType : QualType
  name : DeclName
  mangledName : String
  docComment : Option String
  isInlined : Bool
  sourceLoc : SourceLoc
deriving Repr

/-- `llvm::DenseSet::insert` of one lifetime, with a deterministic
(first-insertion) order standing in for the set's arbitrary one; the
order is irrelevant downstream because the list is later sorted. -/
def insertLifetime (all : List Nat) (l : Nat) : List Nat :=
  if all.contains l then all else all ++ [l]

/-- `all_lifetimes.insert(ls.begin(), ls.end())`. -/
def insertLifetimes (all ls : List Nat) : List Nat :=
  ls.foldl insertLifetime all

/-- Everything `ImportFunction` inserts into `all_lifetimes` on a path
that reaches the lifetime-parameter construction: the `this` lifetimes
(instance methods only), each parameter's lifetimes, then the return
lifetimes; nothing when the oracle failed. -/
def collectAllLifetimes (fd : FunctionDecl) : List Nat :=
  match fd.lifetimes with
  | none => []
  | some lf =>
    let a0 := match fd.method with
      | some m => if m.isInstance then insertLifetimes [] lf.thisLifetimes else []
      | none => []
    let a1 := lf.paramLifetimes.foldl insertLifetimes a0
    insertLifetimes a1 lf.returnLifetimes

/-- `GetTranslatedIdentifier` on a `ParmVarDecl` with function-scope
index `i`. -/
def translateParamIdentifier (s : String) (i : Nat) : Option String :=
  match getTranslatedName (.identName s) (some i) with
  | some (.ident t) => some t
  | _ => none

/-- The `dyn_cast<RecordType>` + `dyn_cast<RecordDecl>` +
`!canPassInRegisters()` test applied to by-value parameter and return
types. -/
def byValueNonTrivialRecord (env : Env) (qt : QualType) : Bool :=
  match qt with
  | .tagType declId _ _ _ =>
    env.isRecordDecl declId && !(env.canPassInRegisters declId)
  | _ => false

/-- The parameter loop of `ImportFunction`, over parameters paired with
their lifetime slots, starting at function-scope index `i`. Returns the
collected `FuncParam`s and errors in program order; `none` models a
`CHECK` failure ( in `ConvertType`, or a missing parameter name). A
failing conversion records one error and continues; a by-value
non-trivial-ABI record records an error but still emits the parameter. -/
def processParams (env : Env) (known : List Nat) :
    List (ParamDecl × Option (List Nat)) → Nat →
    Option (List FuncParam × List String)
  | [], _ => some ([], [])
  | (p, slot) :: rest, i =>
    match convertType env known p.type slot true with
    | .error .fatalErr => none
    | .error (.unsupported _ _) =>
      match processParams env known rest (i + 1) with
      | none => none
      | some (ps, es) =>
        some (ps, ("Parameter type '" ++ p.type.qspell ++ "' is not supported")
          :: es)
    | .ok t =>
      let abiErrs : List String :=
        if byValueNonTrivialRecord env p.type then
          ["Non-trivial_abi type '" ++ p.type.qspell ++
            "' is not supported by value as a parameter"]
        else []
      match translateParamIdentifier p.name i with
      | none => none
      | some pid =>
        match processParams env known rest (i + 1) with
        | none => none
        | some (ps, es) => some (⟨t, pid⟩ :: ps, abiErrs ++ es)

/-- The `lifetime_params` construction loop: look every collected
lifetime up in the oracle's symbol table (a `CHECK` failure — `none` —
when a name is missing) and build the IR lifetimes in collection
order. -/
def buildLifetimeParams (names : List (Nat × String)) :
    List Nat → Option (List LifetimeIR)
  | [] => some []
  | l :: rest =>
    match List.lookup l names with
    | none => none
    | some n =>
      match buildLifetimeParams names rest with
      | none => none
      | some ls => some (⟨n, l⟩ :: ls)

/-- The instance-method metadata `ImportFunction` records for an
instance method `m` of `fd`: ref-qualifier, constness, virtualness,
and — for constructors — explicitness. -/
def instanceMetadataOf (fd : FunctionDecl) (m : MethodInfo) :
    Option InstanceMethodMetadata :=
  if m.isInstance then
    some { reference :=
             match m.refQualifier with
             | .lvalueQual => .lvalueQual
             | .rvalueQual => .rvalueQual
             | .unqualified => .unqualified
           isConst := m.isConst
           isVirtual := m.isVirtual
           isExplicitCtor :=
             match fd.name with
             | .ctorName => m.isExplicit
             | _ => false }
  else none

/-- The emission tail of `ImportFunction`: the error-aggregation check
(`if (!errors.empty()) return LookupResult(errors)`), the
`CHECK(return_type.ok())`, the name translation, and the construction
of the `Func` item. -/
def emitFunc (fd : FunctionDecl) (params : List FuncParam)
    (errors : List String) (returnType : Option MappedType)
    (lifetimeParams : List LifetimeIR)
    (memberMeta : Option MemberFuncMetadata) : Option LookupResult :=
  if errors ≠ [] then some (.errs errors)
  else
    match returnType with
    | none => none
    | some rt =>
      match getTranslatedName fd.name none with
      | some nm =>
        some (.ofItem (.funcItem
          { name := nm
            owningTarget := fd.owningTarget
            docComment := fd.docComment
            mangledName := fd.mangledName
            returnType := rt
            params := params
            lifetimeParams := lifetimeParams
            isInline := fd.isInlined
            memberFuncMetadata := memberMeta
            sourceLoc := fd.sourceLoc }))
      | none => some .skip

/-- The tail of `ImportFunction` from the member-metadata section on:
build and sort the lifetime parameters, decide access, aggregate
errors, translate the name, emit the `Func`. `params` and `errors` are
the accumulators as of the return-type conversion; `returnType` is
`none` when that conversion failed (in which case `errors` is
nonempty). -/
def finishImportFunction (fd : FunctionDecl)
    (params : List FuncParam) (errors : List String)
    (returnType : Option MappedType) : Option LookupResult :=
  match buildLifetimeParams fd.lifetimeNames (collectAllLifetimes fd) with
  | none => none
  | some lps =>
    let lifetimeParams := lps.insertionSort (fun a b => a.name ≤ b.name)
    match fd.method with
    | some m =>
      match m.access with
      | .publicAcc =>
        emitFunc fd params errors returnType lifetimeParams
          (some { recordId := m.parentId
                  instanceMethodMetadata := instanceMetadataOf fd m })
      | _ => some .skip
    | none => emitFunc fd params errors returnType lifetimeParams none

/-- The `__this` synthesis step of `ImportFunction`: for an instance
method, convert the method's `this` type non-nullable, consuming the
`this`-lifetimes slot; a failure is recorded as an error (with
`ConvertType`'s own message). `none` models a `CHECK`-aborted
conversion. -/
def thisStep (env : Env) (known : List Nat) (fd : FunctionDecl) :
    Option (List FuncParam × List String) :=
  match fd.method with
  | some m =>
    if m.isInstance then
      match convertType env known m.thisType
          (fd.lifetimes.map (·.thisLifetimes)) false with
      | .error .fatalErr => none
      | .error (.unsupported msg _) => some ([], [msg])
      | .ok t => some ([⟨t, "__this"⟩], [])
    else some ([], [])
  | none => some ([], [])

/-- Pair each formal parameter with its lifetime slot; when the oracle
succeeded, `CHECK_EQ(lifetimes->param_lifetimes.size(),
getNumParams())` (`none` on violation). -/
def paramPairs (fd : FunctionDecl) :
    Option (List (ParamDecl × Option (List Nat))) :=
  match fd.lifetimes with
  | some lf =>
    if lf.paramLifetimes.length = fd.params.length then
      some (fd.params.zip (lf.paramLifetimes.map some))
    else none
  | none => some (fd.params.map (fun p => (p, none)))

/-- The non-trivial-ABI by-value check on the return type. -/
def returnAbiErrors (env : Env) (fd : FunctionDecl) : List String :=
  if byValueNonTrivialRecord env fd.returnType then
    ["Non-trivial_abi type '" ++ fd.returnType.qspell ++
      "' is not supported by value as a return type"]
  else []

/-- `ImportFunction` after the early skip/refuse rules and the parent
check: synthesize `__this`, check the oracle's parameter-count
invariant, run the parameter loop, convert the return type, finish. -/
def importFunctionRest (env : Env) (known : List Nat) (fd : FunctionDecl) :
    Option LookupResult :=
  match thisStep env known fd with
  | none => none
  | some (params0, errors0) =>
    match paramPairs fd with
    | none => none
    | some pairs =>
      match processParams env known pairs 0 with
      | none => none
      | some (params1, errors1) =>
        match convertType env known fd.returnType
            (fd.lifetimes.map (·.returnLifetimes)) true with
        | .error .fatalErr => none
        | .error (.unsupported _ _) =>
          finishImportFunction fd (params0 ++ params1)
            (errors0 ++ errors1 ++ returnAbiErrors env fd ++
              ["Return type '" ++ fd.returnType.qspell ++ "' is not supported"])
            none
        | .ok rt =>
          finishImportFunction fd (params0 ++ params1)
            (errors0 ++ errors1 ++ returnAbiErrors env fd) (some rt)

/-- `Importer::ImportFunction`. `none` models a run aborted by a
`CHECK` failure. -/
def importFunction (env : Env) (known : List Nat) (fd : FunctionDecl) :
    Option LookupResult :=
  if fd.owningTarget ≠ env.currentTarget then some .skip
  else if fd.isDeleted then some .skip
  else if fd.isTemplated then
    some (.err "Function templates are not supported yet")
  else
    match fd.method with
    | some m =>
      if known.contains m.parentId then importFunctionRest env known fd
      else some (.err "Couldn't import the parent")
    | none => importFunctionRest env known fd

/-- A `clang::TypedefNameDecl` as `ImportTypedefName` queries it.
`typedefTypeSpelling` is `getTypedefType(decl).getAsString()` — the
spelled name the well-known-type check uses. -/
structure TypedefDecl where
  id : Nat
  ctxKind : DeclContextKind
  typedefTypeSpelling : String
  underlyingType : QualType
  owningTarget : String
deriving Repr

/-- `Importer::ImportTypedefName`. `none` models the `LOG(FATAL)` on a
typedef whose identifier cannot be translated, and `CHECK`-aborted
conversions. -/
def importTypedefName (env : Env) (known : List Nat) (td : TypedefDecl) :
    Option (List Nat × LookupResult) :=
  if td.ctxKind = .functionOrMethodCtx then some (known, .skip)
  else if td.ctxKind = .recordCtx then
    some (known, .err "Typedefs nested in classes are not supported yet")
  else if (List.lookup td.typedefTypeSpelling wellKnownTypes).isSome then
    some (known, .skip)
  else
    match env.translatedId td.id with
    | none => none
    | some identifier =>
      match convertType env known td.underlyingType none true with
      | .error .fatalErr => none
      | .error (.unsupported msg _) => some (known, .err msg)
      | .ok t =>
        some (insertKnown known td.id, .ofItem (.typeAliasItem
          { identifier := identifier
            id := td.id
            owningTarget := td.owningTarget
            underlyingType := t }))

/-- One valid source location on the include stack, as
`GetOwningTarget` queries it: whether it is in a system header, and
the `getNonBuiltinFilenameForID` answer for its file. The chain ends
(empty list) when `getIncludeLoc` yields an invalid location. -/
structure IncludeFrame where
  isSystemHeader : Bool
  filename : Option String
deriving DecidableEq, Repr

/-- Strip one leading `./` from a filename
(`filename->startswith("./")` then `substr(2)`). -/
def stripDotSlash (s : String) : String :=
  match s.data with
  | '.' :: '/' :: rest => ⟨rest⟩
  | _ => s

/-- `Importer::GetOwningTarget`: walk the include stack while the
location is valid and not in a system header; a builtin (missing)
filename yields `//:builtin`; a filename in the header→target map
yields its label; exhausting valid non-system locations yields the
virtual resource-dir label. -/
def getOwningTarget (headerTargets : List (String × String)) :
    List IncludeFrame → String
  | [] => "//:virtual_clang_resource_dir_target"
  | f :: rest =>
    if f.isSystemHeader then "//:virtual_clang_resource_dir_target"
    else
      match f.filename with
      | none => "//:builtin"
      | some fn =>
        match List.lookup (stripDotSlash fn) headerTargets with
        | some target => target
        | none => getOwningTarget headerTargets rest

/-- A declaration tree, one constructor per branch of
`Importer::ImportDecl`'s dispatch. Nested declaration contexts (of
records and namespaces) carry their member declarations; every node
stands for its own canonical declaration (the walker always looks up
`getCanonicalDecl()`). -/
inductive Decl where
  | functionD (fd : FunctionDecl)
  | functionTemplateD (fd : FunctionDecl)
  | recordD (rd : RecordDecl) (nested : List Decl)
  | typedefD (td : TypedefDecl)
  | classTemplateD (id : Nat) (ctxKind : DeclContextKind)
  | namespaceD (id : Nat) (ctxKind : DeclContextKind) (nested : List Decl)
  | otherD (id : Nat) (ctxKind : DeclContextKind)

/-- The canonical declaration id (the `DeclId` the cache is keyed by). -/
def Decl.declId : Decl → Nat
  | .functionD fd => fd.id
  | .functionTemplateD fd => fd.id
  | .recordD rd _ => rd.id
  | .typedefD td => td.id
  | .classTemplateD i _ => i
  | .namespaceD i _ _ => i
  | .otherD i _ => i

/-- The kind of context the declaration lives in
(`decl->getDeclContext()`). -/
def Decl.ctxKind : Decl → DeclContextKind
  | .functionD fd => fd.ctxKind
  | .functionTemplateD fd => fd.ctxKind
  | .recordD rd _ => rd.ctxKind
  | .typedefD td => td.ctxKind
  | .classTemplateD _ k => k
  | .namespaceD _ k _ => k
  | .otherD _ k => k

/-- The importer's mutable state: the memo cache `lookup_cache_` and
`known_type_decls_`. -/
structure IState where
  cache : List (Nat × LookupResult)
  knownTypeDecls : List Nat
deriving Repr

/-- `lookup_cache_.insert({k, v})`: like `absl::flat_hash_map`, a no-op
when the key is already present. -/
def insertNewEntry (cache : List (Nat × LookupResult)) (k : Nat)
    (v : LookupResult) : List (Nat × LookupResult) :=
  if (List.lookup k cache).isSome then cache else (k, v) :: cache

/-- A task for the walker's mutual recursion: look up one declaration
(`Importer::LookupDecl`), import one declaration
(`Importer::ImportDecl`), or walk a declaration context
(`Importer::ImportDeclsFromDeclContext`). -/
inductive WalkTask where
  | lookupT (d : Decl)
  | importT (d : Decl)
  | ctxT (ds : List Decl)

/-- The walker: one fuel-indexed function implementing the mutual
recursion of `LookupDecl` / `ImportDecl` /
`ImportDeclsFromDeclContext`, selected by the task. Every recursive
call consumes one unit of fuel, so any finite recursion is covered by
a large enough fuel; `none` covers fuel exhaustion and `CHECK`-aborted
runs. For the context task the `LookupResult` component is a dummy
`.skip`.

`lookupT`: consult the cache, import on a miss, insert (keeping any
entry a recursive import already put there — `flat_hash_map::insert`),
and return `lookup_cache_[decl]`. `importT`: the namespace-context
refusal, then the per-kind dispatch; record imports re-enter the
record's declaration context afterwards. `ctxT`: look up each member
declaration (each node stands for its canonical declaration) and
recurse into namespaces. -/
def walk : Nat → Env → IState → WalkTask → Option (IState × LookupResult)
  | 0, _, _, _ => none
  | fuel + 1, env, st, .lookupT d =>
    match List.lookup d.declId st.cache with
    | some r => some (st, r)
    | none =>
      match walk fuel env st (.importT d) with
      | none => none
      | some (st1, r) =>
        let cache2 := insertNewEntry st1.cache d.declId r
        match List.lookup d.declId cache2 with
        | some r2 => some ({ st1 with cache := cache2 }, r2)
        | none => none
  | fuel + 1, env, st, .importT d =>
    if d.ctxKind = .namespaceCtx then
      some (st, .err "Items contained in namespaces are not supported yet")
    else
      match d with
      | .functionD fd =>
        (importFunction env st.knownTypeDecls fd).map (fun r => (st, r))
      | .functionTemplateD fd =>
        (importFunction env st.knownTypeDecls fd).map (fun r => (st, r))
      | .recordD rd nested =>
        match importRecord env st.knownTypeDecls rd with
        | none => none
        | some (known1, res) =>
          match walk fuel env { st with knownTypeDecls := known1 }
              (.ctxT nested) with
          | none => none
          | some (st2, _) => some (st2, res)
      | .typedefD td =>
        match importTypedefName env st.knownTypeDecls td with
        | none => none
        | some (known1, res) =>
          some ({ st with knownTypeDecls := known1 }, res)
      | .classTemplateD _ _ =>
        some (st, .err "Class templates are not supported yet")
      | .namespaceD _ _ _ => some (st, .skip)
      | .otherD _ _ => some (st, .skip)
  | _ + 1, _, st, .ctxT [] => some (st, .skip)
  | fuel + 1, env, st, .ctxT (d :: rest) =>
    match walk fuel env st (.lookupT d) with
    | none => none
    | some (st1, _) =>
      match (match d with
             | .namespaceD _ _ nested => walk fuel env st1 (.ctxT nested)
             | _ => some (st1, .skip)) with
      | none => none
      | some (st2, _) => walk fuel env st2 (.ctxT rest)

/-- `Importer::LookupDecl` (see `walk`). -/
def lookupDecl (fuel : Nat) (env : Env) (st : IState) (d : Decl) :
    Option (IState × LookupResult) :=
  walk fuel env st (.lookupT d)

/-- `Importer::ImportDecl` (see `walk`). -/
def importDecl (fuel : Nat) (env : Env) (st : IState) (d : Decl) :
    Option (IState × LookupResult) :=
  walk fuel env st (.importT d)

/-- `Importer::ImportDeclsFromDeclContext` (see `walk`). -/
def importDeclsFromDeclContext (fuel : Nat) (env : Env) (st : IState)
    (ds : List Decl) : Option IState :=
  (walk fuel env st (.ctxT ds)).map (fun x => x.1)

/-- A `clang::SourceRange` as the item sorter queries it: validity and
the begin/end positions, with `isBeforeInTranslationUnit` modelled by
`<` on positions (the source manager's total translation-unit order). -/
structure SourceRange where
  valid : Bool
  rangeBegin : Nat
  rangeEnd : Nat
deriving DecidableEq, Repr

/-- An `OrderedItem` of `Importer::Import`:
`(source range, local order, item)`. -/
abbrev OrderedItem := SourceRange × Nat × Item

/-- The `is_less_than` comparator of `Importer::Import`, on the
`(range, local order)` part: invalid ranges first, then begin, then
end, then local order. -/
def itemLess (a b : SourceRange × Nat) : Bool :=
  if !a.1.valid || !b.1.valid then
    if a.1.valid != b.1.valid then !a.1.valid && b.1.valid
    else decide (a.2 < b.2)
  else
    if a.1.rangeBegin ≠ b.1.rangeBegin then
      decide (a.1.rangeBegin < b.1.rangeBegin)
    else if a.1.rangeEnd ≠ b.1.rangeEnd then
      decide (a.1.rangeEnd < b.1.rangeEnd)
    else decide (a.2 < b.2)

/-- `is_less_than` on full `OrderedItem`s. -/
def orderedItemLess (a b : OrderedItem) : Bool :=
  itemLess (a.1, a.2.1) (b.1, b.2.1)

/-- The non-strict order `std::stable_sort` establishes:
`orderedItemLE a b` iff `a` need not come after `b`. -/
def orderedItemLE (a b : OrderedItem) : Bool :=
  ! orderedItemLess b a

/-- What `Importer::Import` reads off one cached declaration when it
assembles items: the kind data feeding `local_order`, the source range,
whether the declaration is from the current target, the qualified name
(when it is a `NamedDecl`), the converted begin location, and the
memoized lookup result. -/
inductive CachedDeclKind where
  | recordKind (parentIsRecord : Bool)
  | ctorKind (isDefault isCopy isMove : Bool)
  | dtorKind
  | otherKind
deriving DecidableEq, Repr

/-- The `local_order` assignment of `Importer::Import`. -/
def localOrder : CachedDeclKind → Nat
  | .recordKind parentIsRecord => if parentIsRecord then 1 else 0
  | .ctorKind isDefault isCopy isMove =>
    if isDefault then 2 else if isCopy then 3 else if isMove then 4 else 5
  | .dtorKind => 6
  | .otherKind => 7

/-- One entry of `lookup_cache_` together with the frontend data
`Importer::Import` queries about its declaration. -/
structure CachedEntry where
  kind : CachedDeclKind
  sourceRange : SourceRange
  fromCurrentTarget : Bool
  qualifiedName : Option String
  beginLoc : SourceLoc
  result : LookupResult
deriving Repr

/-- The ordered items one cached declaration contributes: its IR item
(when the result has one) and, for current-target declarations, one
`UnsupportedItem` per recorded error, all with the declaration's range
and local order. -/
def entryItems (e : CachedEntry) : List OrderedItem :=
  let lo := localOrder e.kind
  (match e.result.item with
   | some item => [(e.sourceRange, lo, item)]
   | none => []) ++
  (if e.fromCurrentTarget then
     e.result.errors.map (fun error =>
       (e.sourceRange, lo, Item.unsupportedItem
         { name := e.qualifiedName.getD "unnamed"
           message := error
           sourceLoc := e.beginLoc }))
   else [])

/-- A free comment with its source range, as `ImportFreeComments`
returns it. -/
structure FreeComment where
  sourceRange : SourceRange
  text : String
deriving DecidableEq, Repr

/-- The unsorted item list `Importer::Import` builds: the cached
declarations' items followed by the free comments at local order 0. -/
def assembleItems (entries : List CachedEntry) (comments : List FreeComment) :
    List OrderedItem :=
  (entries.map entryItems).flatten ++
    comments.map (fun c => (c.sourceRange, 0, Item.commentItem ⟨c.text⟩))

/-- The item emission of `Importer::Import` (lines 145–216): assemble,
stable-sort by `is_less_than`, project the items. -/
def importOutput (entries : List CachedEntry) (comments : List FreeComment) :
    List Item :=
  (((assembleItems entries comments).insertionSort
      (fun a b => orderedItemLE a b = true)).map
    (fun x => x.2.2))

/-- The number of lifetime slots `ConvertType` consumes along the
pointer/reference spine of a type when it succeeds: zero for a
well-known spelling, one per pointer or lvalue-reference level
otherwise. -/
def spineDepth : QualType → Nat
  | .pointer p _ u _ =>
    if (List.lookup u wellKnownTypes).isSome then 0 else spineDepth p + 1
  | .lvalueRef p _ u _ =>
    if (List.lookup u wellKnownTypes).isSome then 0 else spineDepth p + 1
  | _ => 0

/-! Concrete fixtures used to instantiate theorems on closed inputs. -/

/-- An environment whose oracles know every declaration as a passable
record named `S`, for the target `//foo:bar`. -/
def exEnv : Env := ⟨"//foo:bar", fun _ => some "S", fun _ => true, fun _ => true⟩

/-- An environment whose identifier-translation oracle fails. -/
def exEnvNoId : Env := ⟨"//foo:bar", fun _ => none, fun _ => true, fun _ => true⟩

/-- The builtin `int`. -/
def exIntTy : QualType := .builtin (.integer true 32) false "int" "int"

/-- A type no conversion case accepts. -/
def exBadTy : QualType := .otherType false "X" "X"

/-- `int &`. -/
def exRefTy : QualType := .lvalueRef exIntTy false "int &" "int &"

/-- `S *`, the `this` type of a method of record 1. -/
def exThisTy : QualType := .pointer (.tagType 1 false "S" "S") false "S *" "S *"

/-- A source location fixture. -/
def exLoc : SourceLoc := ⟨"t.h", 1, 1⟩

/-- A private instance method of record 1. -/
def exMethodPriv : MethodInfo :=
  ⟨1, true, exThisTy, .privateAcc, .unqualified, false, false, false⟩

/-- A private instance method with one parameter of unsupported type. -/
def exFdPriv : FunctionDecl :=
  ⟨2, .recordCtx, "//foo:bar", false, false, none, [], some exMethodPriv,
    [⟨"x", exBadTy⟩], .builtin .voidKind false "void" "void", .identName "f",
    "_m", none, false, exLoc⟩

/-- A free function `int g(int &p1)` with one inferred lifetime `a`. -/
def exFdLife : FunctionDecl :=
  ⟨3, .translationUnit, "//foo:bar", false, false, some ⟨[], [[10]], []⟩,
    [(10, "a")], none, [⟨"p1", exRefTy⟩], exIntTy, .identName "g", "_g", none,
    false, exLoc⟩

/-- A record with one `int` field. -/
def exRecordOk : RecordDecl :=
  ⟨7, .translationUnit, false, false, true, true, false, false, false,
    [⟨"a", none, exIntTy, .noneAcc, 0⟩], 4, 4, .trivialFn, .trivialFn,
    .trivialFn, true, none, "//foo:bar"⟩

/-- A record with a field of unsupported type. -/
def exRecordBad : RecordDecl :=
  ⟨7, .translationUnit, false, false, true, true, false, false, false,
    [⟨"a", none, exBadTy, .noneAcc, 0⟩], 4, 4, .trivialFn, .trivialFn,
    .trivialFn, true, none, "//foo:bar"⟩

/-- A top-level typedef whose spelled name is not well-known. -/
def exTypedef : TypedefDecl := ⟨9, .translationUnit, "my_t", exIntTy, "//foo:bar"⟩

/-- A public instance method of record 1 with no formal parameters. -/
def exMethodPub : MethodInfo :=
  ⟨1, true, exThisTy, .publicAcc, .unqualified, false, false, false⟩

/-- The declaration of the public instance method `h`. -/
def exFdMethod : FunctionDecl :=
  ⟨4, .recordCtx, "//foo:bar", false, false, none, [], some exMethodPub,
    [], .builtin .voidKind false "void" "void", .identName "h", "_h", none,
    false, exLoc⟩

/-- The `Func` item the import of `exFdMethod` emits. -/
def exFuncH : FuncIR :=
  { name := .ident "h"
    owningTarget := "//foo:bar"
    docComment := none
    mangledName := "_h"
    returnType := .voidTy false
    params := [⟨.pointerTo (.withDeclIds "S" 1 "S" 1 false) none false false,
      "__this"⟩]
    lifetimeParams := []
    isInline := false
    memberFuncMetadata := some ⟨1, some ⟨.unqualified, false, false, false⟩⟩
    sourceLoc := exLoc }

/-- The public variant of `exFdPriv`: a public instance method with one
parameter of unsupported type. -/
def exFdPubBad : FunctionDecl := { exFdPriv with method := some exMethodPub }

/-- `exFdLife` with the lifetime oracle failing. -/
def exFdNoLife : FunctionDecl := { exFdLife with lifetimes := none }

theorem lifetimeIds_setCcConst (t : MappedType) (c : Bool) :
    (t.setCcConst c).lifetimeIds = t.lifetimeIds := by
  cases t with
  | pointerTo p l n c0 => cases l <;> rfl
  | lvalueRefTo p l c0 => cases l <;> rfl
  | voidTy c0 => rfl
  | simple a b c0 => rfl
  | withDeclIds a b d e c0 => rfl

theorem convertTypeCore_none_ok (env : Env) (known : List Nat) :
    ∀ (qt : QualType) (nb : Bool),
    ∃ r, convertTypeCore env known qt none nb = .ok r ∧
      ∀ t, r = some t → t.lifetimeIds = [] := by
  intro qt
  induction qt with
  | builtin k c u q =>
    intro nb
    simp only [convertTypeCore, QualType.uspell]
    cases List.lookup u wellKnownTypes with
    | some rs => exact ⟨_, rfl, fun t ht => by cases ht; rfl⟩
    | none =>
      cases k with
      | boolKind => exact ⟨_, rfl, fun t ht => by cases ht; rfl⟩
      | floatKind => exact ⟨_, rfl, fun t ht => by cases ht; rfl⟩
      | doubleKind => exact ⟨_, rfl, fun t ht => by cases ht; rfl⟩
      | voidKind => exact ⟨_, rfl, fun t ht => by cases ht; rfl⟩
      | integer s n =>
        by_cases h : n = 8 ∨ n = 16 ∨ n = 32 ∨ n = 64
        · simp only [if_pos h]
          exact ⟨_, rfl, fun t ht => by cases ht; rfl⟩
        · simp only [if_neg h]
          exact ⟨none, rfl, fun t ht => by cases ht⟩
      | otherBuiltin => exact ⟨none, rfl, fun t ht => by cases ht⟩
  | pointer pointee c u q ih =>
    intro nb
    simp only [convertTypeCore, QualType.uspell]
    cases List.lookup u wellKnownTypes with
    | some rs => exact ⟨_, rfl, fun t ht => by cases ht; rfl⟩
    | none =>
      obtain ⟨r, hr, hids⟩ := ih true
      rw [hr]
      cases r with
      | none => exact ⟨none, rfl, fun t ht => by cases ht⟩
      | some p =>
        refine ⟨_, rfl, fun t ht => ?_⟩
        cases ht
        simp only [MappedType.lifetimeIds, lifetimeIds_setCcConst]
        exact hids p rfl
  | lvalueRef pointee c u q ih =>
    intro nb
    simp only [convertTypeCore, QualType.uspell]
    cases List.lookup u wellKnownTypes with
    | some rs => exact ⟨_, rfl, fun t ht => by cases ht; rfl⟩
    | none =>
      obtain ⟨r, hr, hids⟩ := ih true
      rw [hr]
      cases r with
      | none => exact ⟨none, rfl, fun t ht => by cases ht⟩
      | some p =>
        refine ⟨_, rfl, fun t ht => ?_⟩
        cases ht
        simp only [MappedType.lifetimeIds, lifetimeIds_setCcConst]
        exact hids p rfl
  | tagType d c u q =>
    intro nb
    simp only [convertTypeCore, QualType.uspell]
    cases List.lookup u wellKnownTypes with
    | some rs => exact ⟨_, rfl, fun t ht => by cases ht; rfl⟩
    | none =>
      by_cases h : known.contains d
      · simp only [if_pos h]
        cases env.translatedId d with
        | some i => exact ⟨_, rfl, fun t ht => by cases ht; rfl⟩
        | none => exact ⟨none, rfl, fun t ht => by cases ht⟩
      · simp only [if_neg h]
        exact ⟨none, rfl, fun t ht => by cases ht⟩
  | typedefType d c u q =>
    intro nb
    simp only [convertTypeCore, QualType.uspell]
    cases List.lookup u wellKnownTypes with
    | some rs => exact ⟨_, rfl, fun t ht => by cases ht; rfl⟩
    | none =>
      by_cases h : known.contains d
      · simp only [if_pos h]
        cases env.translatedId d with
        | some i => exact ⟨_, rfl, fun t ht => by cases ht; rfl⟩
        | none => exact ⟨none, rfl, fun t ht => by cases ht⟩
      · simp only [if_neg h]
        exact ⟨none, rfl, fun t ht => by cases ht⟩
  | otherType c u q =>
    intro nb
    simp only [convertTypeCore, QualType.uspell]
    cases List.lookup u wellKnownTypes with
    | some rs => exact ⟨_, rfl, fun t ht => by cases ht; rfl⟩
    | none => exact ⟨none, rfl, fun t ht => by cases ht⟩

/-- With no lifetime slots, `ConvertType` never hits the empty-stack
`CHECK`. -/
theorem convertType_none_ne_fatal (env : Env) (known : List Nat)
    (qt : QualType) (nb : Bool) :
    convertType env known qt none nb ≠ .error .fatalErr := by
  obtain ⟨r, hr, _⟩ := convertTypeCore_none_ok env known qt nb
  simp only [convertType, hr]
  cases r <;> simp

/-- With no lifetime slots, a successful conversion mentions no
lifetime ids. -/
theorem convertType_none_lifetimeIds (env : Env) (known : List Nat)
    (qt : QualType) (nb : Bool) (t : MappedType)
    (h : convertType env known qt none nb = .ok t) :
    t.lifetimeIds = [] := by
  obtain ⟨r, hr, hids⟩ := convertTypeCore_none_ok env known qt nb
  simp only [convertType, hr] at h
  cases r with
  | none => simp at h
  | some p =>
    simp only [Except.ok.injEq] at h
    subst h
    rw [lifetimeIds_setCcConst]
    exact hids p rfl

/-- A well-known spelling takes precedence over every other conversion
case: whatever the type's structure, lifetime slots and nullability,
the result is the fixed simple type. -/
theorem convertTypeCore_wellKnown (env : Env) (known : List Nat)
    (qt : QualType) (lifetimes : Option (List Nat)) (nb : Bool)
    (rs : String) (h : List.lookup qt.uspell wellKnownTypes = some rs) :
    convertTypeCore env known qt lifetimes nb =
      .ok (some (.simple rs qt.uspell false)) := by
  cases qt <;> simp only [QualType.uspell] at h ⊢ <;>
    simp only [convertTypeCore, h]

/-- A well-known spelling takes precedence over every other conversion
case: whatever the type's structure, lifetime slots and nullability,
the result is the fixed simple type. -/
theorem convertType_wellKnown (env : Env) (known : List Nat)
    (qt : QualType) (lifetimes : Option (List Nat)) (nb : Bool)
    (rs : String) (h : List.lookup qt.uspell wellKnownTypes = some rs) :
    convertType env known qt lifetimes nb =
      .ok (.simple rs qt.uspell qt.isConst) := by
  simp only [convertType, convertTypeCore_wellKnown env known qt lifetimes nb rs h,
    MappedType.setCcConst]

/-- C8: the Type Mapper's well-known-type table maps exactly the listed
spellings — `ptrdiff_t`/`intptr_t` (also `std::`-qualified) to `isize`,
`size_t`/`uintptr_t` (also `std::`-qualified) to `usize`, the
fixed-width `intN_t`/`uintN_t` spellings (also `std::`-qualified) to
`iN`/`uN`, `char16_t` to `u16`, `char32_t` to `u32`, `wchar_t` to
`i32` — and the table lookup on the unqualified spelling takes
precedence over every other conversion case. -/
theorem c8_well_known_type_table :
    (∀ (env : Env) (known : List Nat) (qt : QualType)
       (lifetimes : Option (List Nat)) (nb : Bool) (rs : String),
       List.lookup qt.uspell wellKnownTypes = some rs →
       convertType env known qt lifetimes nb =
         .ok (.simple rs qt.uspell qt.isConst)) ∧
    List.lookup "ptrdiff_t" wellKnownTypes = some "isize" ∧
    List.lookup "intptr_t" wellKnownTypes = some "isize" ∧
    List.lookup "size_t" wellKnownTypes = some "usize" ∧
    List.lookup "uintptr_t" wellKnownTypes = some "usize" ∧
    List.lookup "std::ptrdiff_t" wellKnownTypes = some "isize" ∧
    List.lookup "std::intptr_t" wellKnownTypes = some "isize" ∧
    List.lookup "std::size_t" wellKnownTypes = some "usize" ∧
    List.lookup "std::uintptr_t" wellKnownTypes = some "usize" ∧
    List.lookup "int8_t" wellKnownTypes = some "i8" ∧
    List.lookup "int16_t" wellKnownTypes = some "i16" ∧
    List.lookup "int32_t" wellKnownTypes = some "i32" ∧
    List.lookup "int64_t" wellKnownTypes = some "i64" ∧
    List.lookup "std::int8_t" wellKnownTypes = some "i8" ∧
    List.lookup "std::int16_t" wellKnownTypes = some "i16" ∧
    List.lookup "std::int32_t" wellKnownTypes = some "i32" ∧
    List.lookup "std::int64_t" wellKnownTypes = some "i64" ∧
    List.lookup "uint8_t" wellKnownTypes = some "u8" ∧
    List.lookup "uint16_t" wellKnownTypes = some "u16" ∧
    List.lookup "uint32_t" wellKnownTypes = some "u32" ∧
    List.lookup "uint64_t" wellKnownTypes = some "u64" ∧
    List.lookup "std::uint8_t" wellKnownTypes = some "u8" ∧
    List.lookup "std::uint16_t" wellKnownTypes = some "u16" ∧
    List.lookup "std::uint32_t" wellKnownTypes = some "u32" ∧
    List.lookup "std::uint64_t" wellKnownTypes = some "u64" ∧
    List.lookup "char16_t" wellKnownTypes = some "u16" ∧
    List.lookup "char32_t" wellKnownTypes = some "u32" ∧
    List.lookup "wchar_t" wellKnownTypes = some "i32" ∧
    wellKnownTypes.map Prod.fst =
      ["ptrdiff_t", "intptr_t", "size_t", "uintptr_t",
       "std::ptrdiff_t", "std::intptr_t", "std::size_t", "std::uintptr_t",
       "int8_t", "int16_t", "int32_t", "int64_t",
       "std::int8_t", "std::int16_t", "std::int32_t", "std::int64_t",
       "uint8_t", "uint16_t", "uint32_t", "uint64_t",
       "std::uint8_t", "std::uint16_t", "std::uint32_t", "std::uint64_t",
       "char16_t", "char32_t", "wchar_t"] := by
  refine ⟨fun env known qt lifetimes nb rs h =>
    convertType_wellKnown env known qt lifetimes nb rs h, ?_⟩
  repeat' constructor

/-- C8 witness: the precedence conjunct applied to a pointer-shaped
type whose unqualified spelling is `size_t`: the table wins over the
pointer case. -/
theorem c8_well_known_type_table_witness :
    convertType exEnv [] (QualType.pointer exIntTy false "size_t" "size_t")
      none true = .ok (.simple "usize" "size_t" false) :=
  c8_well_known_type_table.1 exEnv []
    (QualType.pointer exIntTy false "size_t" "size_t") none true "usize" rfl

/-- C3 counterexample: when the declaration's location is invalid from
the start (an empty include chain), `GetOwningTarget` returns the
virtual resource-dir label, not the virtual built-in label the claim
promises for invalid locations. -/
theorem c3_owning_target_counterexample :
    getOwningTarget [] [] = "//:virtual_clang_resource_dir_target" ∧
    "//:virtual_clang_resource_dir_target" ≠ "//:builtin" :=
  ⟨rfl, by decide⟩

/-- C3 (amended): `GetOwningTarget` walks the include stack while the
location is valid and not in a system header, returning the mapped
label on the first filename (leading `./` stripped) found in the
header→target map; a valid non-system location with only a builtin
filename yields the virtual built-in label; when the location becomes
invalid, or lies in a system header, the virtual resource-dir label is
returned. -/
theorem c3_owning_target_resolution (map : List (String × String)) :
    getOwningTarget map [] = "//:virtual_clang_resource_dir_target" ∧
    (∀ (f : IncludeFrame) (rest : List IncludeFrame),
      f.isSystemHeader = true →
      getOwningTarget map (f :: rest) = "//:virtual_clang_resource_dir_target") ∧
    (∀ (f : IncludeFrame) (rest : List IncludeFrame),
      f.isSystemHeader = false → f.filename = none →
      getOwningTarget map (f :: rest) = "//:builtin") ∧
    (∀ (f : IncludeFrame) (rest : List IncludeFrame) (fn target : String),
      f.isSystemHeader = false → f.filename = some fn →
      List.lookup (stripDotSlash fn) map = some target →
      getOwningTarget map (f :: rest) = target) ∧
    (∀ (f : IncludeFrame) (rest : List IncludeFrame) (fn : String),
      f.isSystemHeader = false → f.filename = some fn →
      List.lookup (stripDotSlash fn) map = none →
      getOwningTarget map (f :: rest) = getOwningTarget map rest) ∧
    stripDotSlash "./foo/a.h" = "foo/a.h" ∧
    stripDotSlash "foo/a.h" = "foo/a.h" := by
  refine ⟨rfl, ?_, ?_, ?_, ?_, by decide, by decide⟩
  · intro f rest hs
    cases f
    subst hs
    rfl
  · intro f rest hs hf
    cases f
    subst hs
    subst hf
    rfl
  · intro f rest fn target hs hf hl
    cases f
    subst hs
    subst hf
    have h0 : getOwningTarget map ((⟨false, some fn⟩ : IncludeFrame) :: rest) =
        match List.lookup (stripDotSlash fn) map with
        | some t => t
        | none => getOwningTarget map rest := rfl
    rw [h0, hl]
  · intro f rest fn hs hf hl
    cases f
    subst hs
    subst hf
    have h0 : getOwningTarget map ((⟨false, some fn⟩ : IncludeFrame) :: rest) =
        match List.lookup (stripDotSlash fn) map with
        | some t => t
        | none => getOwningTarget map rest := rfl
    rw [h0, hl]

/-- C3 witness: the amended characterization applied on a concrete
chain: a non-system frame whose `./`-prefixed filename is mapped. -/
theorem c3_owning_target_resolution_witness :
    getOwningTarget [("foo/a.h", "//t:a")] [⟨false, some "./foo/a.h"⟩] =
      "//t:a" :=
  (c3_owning_target_resolution [("foo/a.h", "//t:a")]).2.2.2.1
    ⟨false, some "./foo/a.h"⟩ [] "./foo/a.h" "//t:a" rfl rfl (by decide)

/-- C10: a typedef that is not inside a function or method, not nested
in a record, and whose spelled name is not well-known aborts the whole
run (`LOG(FATAL)`, modelled as `none`) when `GetTranslatedIdentifier`
yields no identifier — no unsupported item, no silent skip. -/
theorem c10_typedef_identifier_fatal (env : Env) (known : List Nat)
    (td : TypedefDecl)
    (h1 : td.ctxKind ≠ .functionOrMethodCtx)
    (h2 : td.ctxKind ≠ .recordCtx)
    (h3 : List.lookup td.typedefTypeSpelling wellKnownTypes = none)
    (h4 : env.translatedId td.id = none) :
    importTypedefName env known td = none := by
  simp [importTypedefName, h1, h2, h3, h4]

/-- C10 witness: a concrete top-level typedef named `my_t` under an
environment whose identifier translation fails. -/
theorem c10_typedef_identifier_fatal_witness :
    importTypedefName exEnvNoId [] exTypedef = none :=
  c10_typedef_identifier_fatal exEnvNoId [] exTypedef
    (by decide) (by decide) (by decide) rfl

theorem contains_iff_memNat (known : List Nat) (d : Nat) :
    known.contains d = true ↔ d ∈ known := by
  rw [List.contains_iff_exists_mem_beq]
  constructor
  · rintro ⟨a, ha, hab⟩
    rw [beq_iff_eq] at hab
    exact hab ▸ ha
  · intro hd
    exact ⟨d, hd, beq_self_eq_true d⟩

theorem mem_insertKnown (known : List Nat) (d a : Nat) :
    a ∈ insertKnown known d ↔ a = d ∨ a ∈ known := by
  simp only [insertKnown]
  by_cases h : known.contains d = true
  · rw [if_pos h]
    have hd : d ∈ known := (contains_iff_memNat known d).mp h
    constructor
    · exact Or.inr
    · rintro (rfl | hm)
      · exact hd
      · exact hm
  · rw [if_neg h]
    simp [List.mem_cons]

theorem mem_eraseKnown (known : List Nat) (d a : Nat) :
    a ∈ eraseKnown known d ↔ a ∈ known ∧ a ≠ d := by
  simp [eraseKnown]

theorem eraseKnown_insertKnown (known : List Nat) (d : Nat)
    (h : d ∉ known) : eraseKnown (insertKnown known d) d = known := by
  have hc : ¬ (known.contains d = true) := fun hb =>
    h ((contains_iff_memNat known d).mp hb)
  have hins : insertKnown known d = d :: known := by
    unfold insertKnown
    rw [if_neg hc]
  rw [hins]
  simp only [eraseKnown, List.filter_cons, bne_self_eq_false,
    Bool.false_eq_true, if_false]
  rw [List.filter_eq_self]
  intro a ha
  rw [bne_iff_ne]
  exact fun had => h (had ▸ ha)

theorem importFields_ne_fatal (env : Env) (known : List Nat)
    (da : AccessSpecifier) :
    ∀ fs, importFields env known da fs ≠ .fatal := by
  intro fs
  induction fs with
  | nil => simp [importFields]
  | cons f rest ih =>
    simp only [importFields]
    cases hconv : convertType env known f.type none true with
    | error e =>
      cases e with
      | fatalErr =>
        exact absurd hconv (convertType_none_ne_fatal env known f.type true)
      | unsupported m p => simp
    | ok t =>
      cases translateIdentifier f.name with
      | none => simp
      | some nm =>
        cases hrest : importFields env known da rest with
        | fatal => exact absurd hrest ih
        | err m => simp
        | ok fs2 => simp

/-- C1: `ImportRecord` is atomic with respect to `known_type_decls`:
for a record not yet known, the import always completes (no abort),
the record is in `known_type_decls` afterwards exactly when a `Record`
item was produced, no other declaration's membership changes, every
non-emitting outcome leaves `known_type_decls` exactly as before, and
a field-import failure on an otherwise importable record yields the
error `"Importing field failed"`. -/
theorem c1_record_import_atomic (env : Env) (known : List Nat)
    (rd : RecordDecl) (hfresh : rd.id ∉ known) :
    ∃ known' res, importRecord env known rd = some (known', res) ∧
      (rd.id ∈ known' ↔ ∃ r : RecordIR, res.item = some (.recordItem r)) ∧
      (∀ d, d ≠ rd.id → (d ∈ known' ↔ d ∈ known)) ∧
      (res.item = none → known' = known) ∧
      (rd.ctxKind ≠ .functionOrMethodCtx → rd.isInjectedClassName = false →
        rd.ctxKind ≠ .recordCtx → rd.isUnion = false →
        rd.definitionOk = true →
        ¬(rd.isCxxRecord = true ∧ rd.isClassTemplateOrSpec = true) →
        (∃ nm, env.translatedId rd.id = some nm) →
        (∃ msg, importFields env (insertKnown known rd.id)
            (if rd.isCxxRecord ∧ rd.isClass then .privateAcc else .publicAcc)
            rd.fields = .err msg) →
        res = .err "Importing field failed") := by
  by_cases h1 : rd.ctxKind = .functionOrMethodCtx
  · refine ⟨known, .skip, by simp [importRecord, h1], ?_, fun d _ => Iff.rfl,
      fun _ => rfl, fun c1 => absurd h1 c1⟩
    simp [LookupResult.skip, hfresh]
  · by_cases h2 : rd.isInjectedClassName = true
    · refine ⟨known, .skip, by simp [importRecord, h1, h2], ?_,
        fun d _ => Iff.rfl, fun _ => rfl, fun _ c2 => by simp [h2] at c2⟩
      simp [LookupResult.skip, hfresh]
    · by_cases h3 : rd.ctxKind = .recordCtx
      · refine ⟨known, .err "Nested classes are not supported yet",
          by simp [importRecord, h1, h2, h3], ?_, fun d _ => Iff.rfl,
          fun _ => rfl, fun _ _ c3 => absurd h3 c3⟩
        simp [LookupResult.err, hfresh]
      · by_cases h4 : rd.isUnion = true
        · refine ⟨known, .err "Unions are not supported yet",
            by simp [importRecord, h1, h2, h3, h4], ?_, fun d _ => Iff.rfl,
            fun _ => rfl, fun _ _ _ c4 => by simp [h4] at c4⟩
          simp [LookupResult.err, hfresh]
        · by_cases h5 : rd.definitionOk = true
          · by_cases h6 : rd.isCxxRecord = true ∧ rd.isClassTemplateOrSpec = true
            · refine ⟨known, .err "Class templates are not supported yet",
                by simp [importRecord, h1, h2, h3, h4, h5, h6], ?_,
                fun d _ => Iff.rfl, fun _ => rfl,
                fun _ _ _ _ _ c6 => absurd h6 c6⟩
              simp [LookupResult.err, hfresh]
            · cases hid : env.translatedId rd.id with
              | none =>
                refine ⟨known, .skip,
                  by simp [importRecord, h1, h2, h3, h4, h5, h6, hid], ?_,
                  fun d _ => Iff.rfl, fun _ => rfl,
                  fun _ _ _ _ _ _ c7 _ => ?_⟩
                · simp [LookupResult.skip, hfresh]
                · obtain ⟨nm, hnm⟩ := c7
                  simp [hid] at hnm
              | some nm =>
                cases hfl : importFields env (insertKnown known rd.id)
                    (if rd.isCxxRecord ∧ rd.isClass then .privateAcc
                     else .publicAcc) rd.fields with
                | fatal => exact absurd hfl (importFields_ne_fatal _ _ _ _)
                | err m =>
                  refine ⟨known, .err "Importing field failed", ?_, ?_,
                    fun d hd => ?_, fun _ => ?_, fun _ _ _ _ _ _ _ _ => rfl⟩
                  · simp only [importRecord, h1, h2, h3, h4, h5, h6, hid, hfl]
                    simp [eraseKnown_insertKnown known rd.id hfresh]
                  · simp [LookupResult.err, hfresh]
                  · exact Iff.rfl
                  · rfl
                | ok fs =>
                  have hrun : importRecord env known rd =
                      some (insertKnown known rd.id, LookupResult.ofItem
                        (.recordItem
                          ⟨nm, rd.id, rd.owningTarget, rd.docComment, fs,
                            rd.size, rd.alignment, rd.copyCtor, rd.moveCtor,
                            rd.dtor, rd.canPassInRegisters,
                            if rd.isCxxRecord then rd.isEffectivelyFinal
                            else true⟩)) := by
                    simp only [importRecord, h1, h2, h3, h4, h5, h6, hid, hfl]
                    simp [LookupResult.ofItem]
                  refine ⟨_, _, hrun, ?_, fun d hd => ?_, fun hnone => ?_,
                    fun _ _ _ _ _ _ _ c8 => ?_⟩
                  · simp [LookupResult.ofItem, mem_insertKnown]
                  · rw [mem_insertKnown]
                    exact ⟨fun hh => hh.elim (fun he => absurd he hd) id,
                      Or.inr⟩
                  · simp [LookupResult.ofItem] at hnone
                  · obtain ⟨msg, hmsg⟩ := c8
                    simp [hfl] at hmsg
          · refine ⟨known, .skip,
              by simp [importRecord, h1, h2, h3, h4, h5], ?_,
              fun d _ => Iff.rfl, fun _ => rfl,
              fun _ _ _ _ c5 _ => absurd c5 h5⟩
            simp [LookupResult.skip, hfresh]

/-- C1 witness: a record with a field of unsupported type, not yet
known: the import completes, the provisional entry is rolled back, and
the result is the `"Importing field failed"` error. -/
theorem c1_record_import_atomic_witness :
    (exRecordBad.id ∉ ([] : List Nat)) ∧
    ∃ known' res, importRecord exEnv [] exRecordBad = some (known', res) ∧
      (exRecordBad.id ∈ known' ↔
        ∃ r : RecordIR, res.item = some (.recordItem r)) ∧
      (∀ d, d ≠ exRecordBad.id → (d ∈ known' ↔ d ∈ ([] : List Nat))) ∧
      (res.item = none → known' = []) ∧
      (exRecordBad.ctxKind ≠ .functionOrMethodCtx →
        exRecordBad.isInjectedClassName = false →
        exRecordBad.ctxKind ≠ .recordCtx → exRecordBad.isUnion = false →
        exRecordBad.definitionOk = true →
        ¬(exRecordBad.isCxxRecord = true ∧
          exRecordBad.isClassTemplateOrSpec = true) →
        (∃ nm, exEnv.translatedId exRecordBad.id = some nm) →
        (∃ msg, importFields exEnv (insertKnown [] exRecordBad.id)
            (if exRecordBad.isCxxRecord ∧ exRecordBad.isClass then .privateAcc
             else .publicAcc) exRecordBad.fields = .err msg) →
        res = .err "Importing field failed") :=
  ⟨by decide, c1_record_import_atomic exEnv [] exRecordBad (by decide)⟩

theorem lookup_insertNewEntry (cache : List (Nat × LookupResult)) (k : Nat)
    (v : LookupResult) (a : Nat) (w : LookupResult)
    (h : List.lookup a cache = some w) :
    List.lookup a (insertNewEntry cache k v) = some w := by
  unfold insertNewEntry
  by_cases hk : (List.lookup k cache).isSome
  · rw [if_pos hk]
    exact h
  · rw [if_neg hk]
    have hak : (a == k) = false := by
      rw [beq_eq_false_iff_ne]
      intro he
      subst he
      rw [h] at hk
      exact hk rfl
    simp [List.lookup, hak, h]

/-- Every `walk` step only ever adds cache entries: entries present
before are present, unchanged, after. -/
theorem walk_cache_preserved :
    ∀ (fuel : Nat) (env : Env) (st : IState) (task : WalkTask) (st1 : IState)
      (r1 : LookupResult),
      walk fuel env st task = some (st1, r1) →
      ∀ k v, List.lookup k st.cache = some v →
        List.lookup k st1.cache = some v := by
  intro fuel
  induction fuel with
  | zero =>
    intro env st task st1 r1 h
    simp [walk] at h
  | succ n ih =>
    intro env st task st1 r1 h k v hk
    cases task with
    | lookupT d =>
      simp only [walk] at h
      split at h
      · simp only [Option.some.injEq, Prod.mk.injEq] at h
        obtain ⟨h1, _⟩ := h
        subst h1
        exact hk
      · split at h
        · cases h
        · rename_i st2 r2 heq
          have hpres := ih env st (.importT d) st2 r2 heq k v hk
          split at h
          · rename_i r3 heq3
            simp only [Option.some.injEq, Prod.mk.injEq] at h
            obtain ⟨h1, _⟩ := h
            subst h1
            exact lookup_insertNewEntry st2.cache d.declId r2 k v hpres
          · cases h
    | importT d =>
      simp only [walk] at h
      split at h
      · simp only [Option.some.injEq, Prod.mk.injEq] at h
        obtain ⟨h1, _⟩ := h
        subst h1
        exact hk
      · cases d with
        | functionD fd =>
          dsimp only at h
          cases himp : importFunction env st.knownTypeDecls fd with
          | none => rw [himp] at h; cases h
          | some r =>
            rw [himp] at h
            simp only [Option.map_some', Option.some.injEq,
              Prod.mk.injEq] at h
            obtain ⟨h1, _⟩ := h
            subst h1
            exact hk
        | functionTemplateD fd =>
          dsimp only at h
          cases himp : importFunction env st.knownTypeDecls fd with
          | none => rw [himp] at h; cases h
          | some r =>
            rw [himp] at h
            simp only [Option.map_some', Option.some.injEq,
              Prod.mk.injEq] at h
            obtain ⟨h1, _⟩ := h
            subst h1
            exact hk
        | recordD rd nested =>
          dsimp only at h
          split at h
          · cases h
          · rename_i known1 res _
            split at h
            · cases h
            · rename_i st2 r2 heq
              simp only [Option.some.injEq, Prod.mk.injEq] at h
              obtain ⟨h1, _⟩ := h
              subst h1
              exact ih env _ (.ctxT nested) st2 r2 heq k v hk
        | typedefD td =>
          dsimp only at h
          split at h
          · cases h
          · simp only [Option.some.injEq, Prod.mk.injEq] at h
            obtain ⟨h1, _⟩ := h
            subst h1
            exact hk
        | classTemplateD i ck =>
          dsimp only at h
          simp only [Option.some.injEq, Prod.mk.injEq] at h
          obtain ⟨h1, _⟩ := h
          subst h1
          exact hk
        | namespaceD i ck nested =>
          dsimp only at h
          simp only [Option.some.injEq, Prod.mk.injEq] at h
          obtain ⟨h1, _⟩ := h
          subst h1
          exact hk
        | otherD i ck =>
          dsimp only at h
          simp only [Option.some.injEq, Prod.mk.injEq] at h
          obtain ⟨h1, _⟩ := h
          subst h1
          exact hk
    | ctxT ds =>
      cases ds with
      | nil =>
        simp only [walk, Option.some.injEq, Prod.mk.injEq] at h
        obtain ⟨h1, _⟩ := h
        subst h1
        exact hk
      | cons d rest =>
        simp only [walk] at h
        split at h
        · cases h
        · rename_i stA rA heqA
          have hA := ih env st (.lookupT d) stA rA heqA k v hk
          split at h
          · cases h
          · rename_i stB rB heqB
            have hB : List.lookup k stB.cache = some v := by
              cases d with
              | namespaceD i ck nested =>
                dsimp only at heqB
                exact ih env stA (.ctxT nested) stB rB heqB k v hA
              | functionD fd =>
                dsimp only at heqB
                simp only [Option.some.injEq, Prod.mk.injEq] at heqB
                obtain ⟨h1, _⟩ := heqB
                subst h1
                exact hA
              | functionTemplateD fd =>
                dsimp only at heqB
                simp only [Option.some.injEq, Prod.mk.injEq] at heqB
                obtain ⟨h1, _⟩ := heqB
                subst h1
                exact hA
              | recordD rd nested =>
                dsimp only at heqB
                simp only [Option.some.injEq, Prod.mk.injEq] at heqB
                obtain ⟨h1, _⟩ := heqB
                subst h1
                exact hA
              | typedefD td =>
                dsimp only at heqB
                simp only [Option.some.injEq, Prod.mk.injEq] at heqB
                obtain ⟨h1, _⟩ := heqB
                subst h1
                exact hA
              | classTemplateD i ck =>
                dsimp only at heqB
                simp only [Option.some.injEq, Prod.mk.injEq] at heqB
                obtain ⟨h1, _⟩ := heqB
                subst h1
                exact hA
              | otherD i ck =>
                dsimp only at heqB
                simp only [Option.some.injEq, Prod.mk.injEq] at heqB
                obtain ⟨h1, _⟩ := heqB
                subst h1
                exact hA
            exact ih env stB (.ctxT rest) st1 r1 h k v hB

/-- A lookup stores its result: after `LookupDecl` returns, the cache
maps the declaration to exactly the returned result. -/
theorem lookupDecl_stores (fuel : Nat) (env : Env) (st : IState) (d : Decl)
    (st1 : IState) (r1 : LookupResult)
    (h : lookupDecl fuel env st d = some (st1, r1)) :
    List.lookup d.declId st1.cache = some r1 := by
  cases fuel with
  | zero => simp [lookupDecl, walk] at h
  | succ n =>
    simp only [lookupDecl, walk] at h
    split at h
    · rename_i r heq
      simp only [Option.some.injEq, Prod.mk.injEq] at h
      obtain ⟨h1, h2⟩ := h
      subst h1
      subst h2
      exact heq
    · split at h
      · cases h
      · rename_i st2 r2 heq
        split at h
        · rename_i r3 heq3
          simp only [Option.some.injEq, Prod.mk.injEq] at h
          obtain ⟨h1, h2⟩ := h
          subst h1
          subst h2
          exact heq3
        · cases h

/-- A cached declaration is answered from the cache, leaving the state
untouched. -/
theorem lookupDecl_cached (fuel : Nat) (env : Env) (st : IState) (d : Decl)
    (r : LookupResult) (h : List.lookup d.declId st.cache = some r) :
    lookupDecl (fuel + 1) env st d = some (st, r) := by
  simp [lookupDecl, walk, h]

/-- C2: declaration lookup is memoized and idempotent — a declaration
already in the cache is answered from the cache with the state
untouched; a completed lookup leaves the declaration mapped to exactly
its returned result; any intervening lookup preserves every existing
cache entry unchanged; hence a lookup, followed by any other lookup,
followed by a lookup of the first declaration again returns exactly the
first stored result. -/
theorem c2_lookup_memoized_idempotent (env : Env) :
    (∀ (fuel : Nat) (st : IState) (d : Decl) (r : LookupResult),
      List.lookup d.declId st.cache = some r →
      lookupDecl (fuel + 1) env st d = some (st, r)) ∧
    (∀ (fuel : Nat) (st : IState) (d : Decl) (st1 : IState)
       (r : LookupResult),
      lookupDecl fuel env st d = some (st1, r) →
      List.lookup d.declId st1.cache = some r) ∧
    (∀ (fuel : Nat) (st : IState) (d2 : Decl) (st1 : IState)
       (r1 : LookupResult) (k : Nat) (v : LookupResult),
      lookupDecl fuel env st d2 = some (st1, r1) →
      List.lookup k st.cache = some v → List.lookup k st1.cache = some v) ∧
    (∀ (f1 f2 f3 : Nat) (st st1 st2 : IState) (d d2 : Decl)
       (r r2 : LookupResult),
      lookupDecl f1 env st d = some (st1, r) →
      lookupDecl f2 env st1 d2 = some (st2, r2) →
      lookupDecl (f3 + 1) env st2 d = some (st2, r)) := by
  refine ⟨fun fuel st d r h => lookupDecl_cached fuel env st d r h,
    fun fuel st d st1 r h => lookupDecl_stores fuel env st d st1 r h,
    fun fuel st d2 st1 r1 k v h hk =>
      walk_cache_preserved fuel env st (.lookupT d2) st1 r1 h k v hk,
    fun f1 f2 f3 st st1 st2 d d2 r r2 h1 h2 => ?_⟩
  have hs := lookupDecl_stores f1 env st d st1 r h1
  have hp := walk_cache_preserved f2 env st1 (.lookupT d2) st2 r2 h2
    d.declId r hs
  exact lookupDecl_cached f3 env st2 d r hp

/-- C2 witness: look up declaration 5 (cached as a skip), look up
declaration 6 in between, then apply the theorem: the second lookup of
declaration 5 is answered from the cache with the memoized result and
no state change. -/
theorem c2_lookup_memoized_idempotent_witness :
    lookupDecl 1 exEnv
      ⟨[(6, LookupResult.skip), (5, LookupResult.skip)], []⟩
      (.otherD 5 .translationUnit) =
    some (⟨[(6, LookupResult.skip), (5, LookupResult.skip)], []⟩,
      LookupResult.skip) := by
  have h1 : lookupDecl 2 exEnv ⟨[], []⟩ (.otherD 5 .translationUnit) =
      some (⟨[(5, LookupResult.skip)], []⟩, LookupResult.skip) := rfl
  have h2 : lookupDecl 2 exEnv ⟨[(5, LookupResult.skip)], []⟩
      (.otherD 6 .translationUnit) =
      some (⟨[(6, LookupResult.skip), (5, LookupResult.skip)], []⟩,
        LookupResult.skip) := rfl
  exact (c2_lookup_memoized_idempotent exEnv).2.2.2 2 2 0 ⟨[], []⟩
    ⟨[(5, LookupResult.skip)], []⟩
    ⟨[(6, LookupResult.skip), (5, LookupResult.skip)], []⟩
    (.otherD 5 .translationUnit) (.otherD 6 .translationUnit)
    LookupResult.skip LookupResult.skip h1 h2

theorem translateParamIdentifier_total (s : String) (i : Nat) :
    ∃ t, translateParamIdentifier s i = some t := by
  unfold translateParamIdentifier getTranslatedName
  dsimp only
  by_cases h : s = ""
  · rw [if_pos h]
    exact ⟨_, rfl⟩
  · rw [if_neg h]
    exact ⟨s, rfl⟩

/-- Every parameter whose type conversion fails contributes its
`"Parameter type ... is not supported"` error to the collected list:
the loop records the error and continues (single pass, one error per
offending parameter). -/
theorem processParams_mem_errors (env : Env) (known : List Nat) :
    ∀ (pairs : List (ParamDecl × Option (List Nat))) (i : Nat)
      (params : List FuncParam) (errors : List String),
      processParams env known pairs i = some (params, errors) →
      ∀ p slot, (p, slot) ∈ pairs →
        (∀ t, convertType env known p.type slot true ≠ .ok t) →
        ("Parameter type '" ++ p.type.qspell ++ "' is not supported") ∈
          errors := by
  intro pairs
  induction pairs with
  | nil =>
    intro i params errors h p slot hmem
    cases hmem
  | cons pr rest ih =>
    intro i params errors h p slot hmem hnok
    obtain ⟨q, qslot⟩ := pr
    simp only [processParams] at h
    rcases List.mem_cons.mp hmem with heq | hrest
    · injection heq with h1 h2
      subst h1
      subst h2
      cases hconv : convertType env known p.type slot true with
      | error e =>
        cases e with
        | fatalErr =>
          rw [hconv] at h
          dsimp only at h
          cases h
        | unsupported m pl =>
          rw [hconv] at h
          dsimp only at h
          split at h
          · cases h
          · simp only [Option.some.injEq, Prod.mk.injEq] at h
            obtain ⟨_, h2⟩ := h
            subst h2
            exact List.mem_cons_self _ _
      | ok t => exact absurd hconv (hnok t)
    · cases hconv : convertType env known q.type qslot true with
      | error e =>
        cases e with
        | fatalErr =>
          rw [hconv] at h
          dsimp only at h
          cases h
        | unsupported m pl =>
          rw [hconv] at h
          dsimp only at h
          split at h
          · cases h
          · rename_i ps es heq
            simp only [Option.some.injEq, Prod.mk.injEq] at h
            obtain ⟨_, h2⟩ := h
            subst h2
            exact List.mem_cons_of_mem _
              (ih (i + 1) ps es heq p slot hrest hnok)
      | ok t =>
        rw [hconv] at h
        dsimp only at h
        obtain ⟨pid, hpid⟩ := translateParamIdentifier_total q.name i
        rw [hpid] at h
        dsimp only at h
        split at h
        · cases h
        · rename_i ps es heq
          simp only [Option.some.injEq, Prod.mk.injEq] at h
          obtain ⟨_, h2⟩ := h
          subst h2
          exact List.mem_append_right _
            (ih (i + 1) ps es heq p slot hrest hnok)

/-- When the loop collects no error, the emitted parameters correspond
one-to-one, in order, to the pairs, each type coming from its
successful conversion. -/
theorem processParams_ok_forall2 (env : Env) (known : List Nat) :
    ∀ (pairs : List (ParamDecl × Option (List Nat))) (i : Nat)
      (params : List FuncParam),
      processParams env known pairs i = some (params, []) →
      List.Forall₂ (fun (pr : ParamDecl × Option (List Nat))
          (fp : FuncParam) =>
        convertType env known pr.1.type pr.2 true = .ok fp.type)
        pairs params := by
  intro pairs
  induction pairs with
  | nil =>
    intro i params h
    simp only [processParams, Option.some.injEq, Prod.mk.injEq] at h
    obtain ⟨h1, _⟩ := h
    subst h1
    exact List.Forall₂.nil
  | cons pr rest ih =>
    intro i params h
    obtain ⟨q, qslot⟩ := pr
    simp only [processParams] at h
    cases hconv : convertType env known q.type qslot true with
    | error e =>
      cases e with
      | fatalErr =>
        rw [hconv] at h
        dsimp only at h
        cases h
      | unsupported m pl =>
        rw [hconv] at h
        dsimp only at h
        split at h
        · cases h
        · simp only [Option.some.injEq, Prod.mk.injEq] at h
          obtain ⟨_, h2⟩ := h
          cases h2
    | ok t =>
      rw [hconv] at h
      dsimp only at h
      obtain ⟨pid, hpid⟩ := translateParamIdentifier_total q.name i
      rw [hpid] at h
      dsimp only at h
      split at h
      · cases h
      · rename_i ps es heq
        simp only [Option.some.injEq, Prod.mk.injEq] at h
        obtain ⟨h1, h2⟩ := h
        subst h1
        have hboth := List.append_eq_nil.mp h2
        have hes : es = [] := hboth.2
        subst hes
        exact List.Forall₂.cons hconv (ih (i + 1) ps heq)

/-- Exhaustive characterization of `finishImportFunction`'s successful
outcomes: a non-public method is skipped (collected errors are
discarded); otherwise a nonempty error list is returned as the lookup
result; otherwise a function with an untranslatable name is skipped;
otherwise the `Func` item is emitted with the sorted lifetime
parameters, the accumulated parameters, the converted return type and
the member metadata. -/
theorem emitFunc_cases (fd : FunctionDecl) (params : List FuncParam)
    (errors : List String) (returnType : Option MappedType)
    (lifetimeParams : List LifetimeIR)
    (memberMeta : Option MemberFuncMetadata) (res : LookupResult)
    (h : emitFunc fd params errors returnType lifetimeParams memberMeta =
      some res) :
    (errors ≠ [] ∧ res = .errs errors) ∨
    (errors = [] ∧ getTranslatedName fd.name none = none ∧ res = .skip) ∨
    (errors = [] ∧ ∃ nm rt, getTranslatedName fd.name none = some nm ∧
      returnType = some rt ∧
      res = .ofItem (.funcItem
        { name := nm
          owningTarget := fd.owningTarget
          docComment := fd.docComment
          mangledName := fd.mangledName
          returnType := rt
          params := params
          lifetimeParams := lifetimeParams
          isInline := fd.isInlined
          memberFuncMetadata := memberMeta
          sourceLoc := fd.sourceLoc })) := by
  unfold emitFunc at h
  split at h
  case isTrue hne =>
    simp only [Option.some.injEq] at h
    exact Or.inl ⟨hne, h.symm⟩
  case isFalse hne =>
    have he : errors = [] := not_not.mp hne
    cases hrt : returnType with
    | none =>
      rw [hrt] at h
      cases h
    | some rt =>
      rw [hrt] at h
      dsimp only at h
      cases hnm : getTranslatedName fd.name none with
      | none =>
        rw [hnm] at h
        simp only [Option.some.injEq] at h
        exact Or.inr (Or.inl ⟨he, rfl, h.symm⟩)
      | some nm =>
        rw [hnm] at h
        simp only [Option.some.injEq] at h
        exact Or.inr (Or.inr ⟨he, nm, rt, rfl, rfl, h.symm⟩)

/-- Exhaustive characterization of `finishImportFunction`'s successful
outcomes: a non-public method is skipped (collected errors are
discarded); otherwise a nonempty error list is returned as the lookup
result; otherwise a function with an untranslatable name is skipped;
otherwise the `Func` item is emitted with the sorted lifetime
parameters, the accumulated parameters, the converted return type and
the member metadata. -/
theorem finishImportFunction_cases (fd : FunctionDecl)
    (params : List FuncParam) (errors : List String)
    (returnType : Option MappedType) (res : LookupResult)
    (h : finishImportFunction fd params errors returnType = some res) :
    ∃ lps, buildLifetimeParams fd.lifetimeNames (collectAllLifetimes fd) =
        some lps ∧
      ((∃ m, fd.method = some m ∧ m.access ≠ .publicAcc ∧ res = .skip) ∨
       (errors ≠ [] ∧ res = .errs errors) ∨
       (errors = [] ∧ getTranslatedName fd.name none = none ∧ res = .skip) ∨
       (errors = [] ∧ ∃ nm rt, getTranslatedName fd.name none = some nm ∧
         returnType = some rt ∧
         res = .ofItem (.funcItem
           { name := nm
             owningTarget := fd.owningTarget
             docComment := fd.docComment
             mangledName := fd.mangledName
             returnType := rt
             params := params
             lifetimeParams := lps.insertionSort (fun a b => a.name ≤ b.name)
             isInline := fd.isInlined
             memberFuncMetadata := fd.method.map
               (fun m => ⟨m.parentId, instanceMetadataOf fd m⟩)
             sourceLoc := fd.sourceLoc }))) := by
  unfold finishImportFunction at h
  cases hbl : buildLifetimeParams fd.lifetimeNames (collectAllLifetimes fd) with
  | none =>
    rw [hbl] at h
    cases h
  | some lps =>
    rw [hbl] at h
    dsimp only at h
    refine ⟨lps, rfl, ?_⟩
    cases hmth : fd.method with
    | none =>
      rw [hmth] at h
      dsimp only at h
      rcases emitFunc_cases fd params errors returnType _ none res h with
        h2 | h3 | h4
      · exact Or.inr (Or.inl h2)
      · exact Or.inr (Or.inr (Or.inl h3))
      · refine Or.inr (Or.inr (Or.inr ?_))
        simpa [hmth] using h4
    | some m =>
      rw [hmth] at h
      dsimp only at h
      cases hacc : m.access with
      | publicAcc =>
        rw [hacc] at h
        dsimp only at h
        rcases emitFunc_cases fd params errors returnType _
            (some ⟨m.parentId, instanceMetadataOf fd m⟩) res h with h2 | h3 | h4
        · exact Or.inr (Or.inl h2)
        · exact Or.inr (Or.inr (Or.inl h3))
        · refine Or.inr (Or.inr (Or.inr ?_))
          simpa [hmth, Option.map] using h4
      | protectedAcc =>
        rw [hacc] at h
        dsimp only at h
        simp only [Option.some.injEq] at h
        refine Or.inl ⟨m, rfl, ?_, h.symm⟩
        rw [hacc]
        decide
      | privateAcc =>
        rw [hacc] at h
        dsimp only at h
        simp only [Option.some.injEq] at h
        refine Or.inl ⟨m, rfl, ?_, h.symm⟩
        rw [hacc]
        decide
      | noneAcc =>
        rw [hacc] at h
        dsimp only at h
        simp only [Option.some.injEq] at h
        refine Or.inl ⟨m, rfl, ?_, h.symm⟩
        rw [hacc]
        decide

/-- Inversion of `importFunctionRest`: a successful run decomposes
into the `__this` step, the checked parameter pairing, the parameter
loop, the return conversion (successful, or recorded as one more
error), and the finish. -/
theorem importFunctionRest_inversion (env : Env) (known : List Nat)
    (fd : FunctionDecl) (res : LookupResult)
    (h : importFunctionRest env known fd = some res) :
    ∃ params0 errors0 pairs params1 errors1 retTy retErrs,
      thisStep env known fd = some (params0, errors0) ∧
      paramPairs fd = some pairs ∧
      processParams env known pairs 0 = some (params1, errors1) ∧
      ((∃ rt, convertType env known fd.returnType
          (fd.lifetimes.map (fun lf => lf.returnLifetimes)) true = .ok rt ∧
        retTy = some rt ∧ retErrs = ([] : List String)) ∨
       ((∃ msg pl, convertType env known fd.returnType
          (fd.lifetimes.map (fun lf => lf.returnLifetimes)) true =
          .error (.unsupported msg pl)) ∧ retTy = none ∧
        retErrs = ["Return type '" ++ fd.returnType.qspell ++
          "' is not supported"])) ∧
      finishImportFunction fd (params0 ++ params1)
        (errors0 ++ errors1 ++ returnAbiErrors env fd ++ retErrs) retTy =
        some res := by
  unfold importFunctionRest at h
  cases hts : thisStep env known fd with
  | none => rw [hts] at h; cases h
  | some pe =>
    obtain ⟨params0, errors0⟩ := pe
    rw [hts] at h
    dsimp only at h
    cases hpp : paramPairs fd with
    | none => rw [hpp] at h; cases h
    | some pairs =>
      rw [hpp] at h
      dsimp only at h
      cases hproc : processParams env known pairs 0 with
      | none => rw [hproc] at h; cases h
      | some pe1 =>
        obtain ⟨params1, errors1⟩ := pe1
        rw [hproc] at h
        dsimp only at h
        cases hconv : convertType env known fd.returnType
            (fd.lifetimes.map (fun lf => lf.returnLifetimes)) true with
        | error e =>
          cases e with
          | fatalErr =>
            rw [hconv] at h
            dsimp only at h
            cases h
          | unsupported m pl =>
            rw [hconv] at h
            dsimp only at h
            exact ⟨params0, errors0, pairs, params1, errors1, none, _, rfl,
              rfl, hproc, Or.inr ⟨⟨m, pl, rfl⟩, rfl, rfl⟩, h⟩
        | ok rt =>
          rw [hconv] at h
          dsimp only at h
          refine ⟨params0, errors0, pairs, params1, errors1, some rt, [],
            rfl, rfl, hproc, Or.inl ⟨rt, rfl, rfl, rfl⟩, ?_⟩
          rw [List.append_nil]
          exact h

/-- The early skip/refuse rules of `ImportFunction` stepped over: for
a current-target, non-deleted, non-template function whose method
parent (if any) is known, the import is `importFunctionRest`. -/
theorem importFunction_to_rest (env : Env) (known : List Nat)
    (fd : FunctionDecl) (res : LookupResult)
    (h : importFunction env known fd = some res)
    (hcur : fd.owningTarget = env.currentTarget)
    (hdel : fd.isDeleted = false) (htem : fd.isTemplated = false)
    (hpar : ∀ m, fd.method = some m → known.contains m.parentId = true) :
    importFunctionRest env known fd = some res := by
  unfold importFunction at h
  rw [if_neg (not_not_intro hcur)] at h
  rw [hdel] at h
  simp only [Bool.false_eq_true, if_false] at h
  rw [htem] at h
  simp only [Bool.false_eq_true, if_false] at h
  cases hm : fd.method with
  | none =>
    rw [hm] at h
    exact h
  | some m =>
    rw [hm] at h
    dsimp only at h
    rw [if_pos (hpar m hm)] at h
    exact h

/-- Inversion of an emitted `Func`: if `ImportFunction` produced an
item it is a `Func` whose parameters are the `__this` step's output
followed by the loop's output (all conversions successful, no errors
anywhere), whose return type converted successfully, and whose
lifetime parameters are the sorted symbol-table image of the collected
lifetimes. -/
theorem importFunction_func_inversion (env : Env) (known : List Nat)
    (fd : FunctionDecl) (res : LookupResult) (f : FuncIR)
    (h : importFunction env known fd = some res)
    (hf : res.item = some (.funcItem f)) :
    ∃ params0 pairs params1 rt lps nm,
      thisStep env known fd = some (params0, []) ∧
      paramPairs fd = some pairs ∧
      processParams env known pairs 0 = some (params1, []) ∧
      returnAbiErrors env fd = [] ∧
      convertType env known fd.returnType
        (fd.lifetimes.map (fun lf => lf.returnLifetimes)) true = .ok rt ∧
      buildLifetimeParams fd.lifetimeNames (collectAllLifetimes fd) =
        some lps ∧
      getTranslatedName fd.name none = some nm ∧
      f = { name := nm
            owningTarget := fd.owningTarget
            docComment := fd.docComment
            mangledName := fd.mangledName
            returnType := rt
            params := params0 ++ params1
            lifetimeParams := lps.insertionSort (fun a b => a.name ≤ b.name)
            isInline := fd.isInlined
            memberFuncMetadata := fd.method.map
              (fun m => ⟨m.parentId, instanceMetadataOf fd m⟩)
            sourceLoc := fd.sourceLoc } := by
  have hrest : importFunctionRest env known fd = some res := by
    unfold importFunction at h
    split at h
    · simp only [Option.some.injEq] at h
      subst h
      simp [LookupResult.skip] at hf
    · split at h
      · simp only [Option.some.injEq] at h
        subst h
        simp [LookupResult.skip] at hf
      · split at h
        · simp only [Option.some.injEq] at h
          subst h
          simp [LookupResult.err] at hf
        · cases hm : fd.method with
          | none =>
            rw [hm] at h
            exact h
          | some m =>
            rw [hm] at h
            dsimp only at h
            split at h
            · exact h
            · simp only [Option.some.injEq] at h
              subst h
              simp [LookupResult.err] at hf
  obtain ⟨params0, errors0, pairs, params1, errors1, retTy, retErrs, hts,
    hpp, hproc, hret, hfin⟩ := importFunctionRest_inversion env known fd
    res hrest
  obtain ⟨lps, hlps, hcases⟩ := finishImportFunction_cases fd _ _ _ res hfin
  rcases hcases with ⟨m, _, _, hres⟩ | ⟨_, hres⟩ | ⟨_, _, hres⟩ |
    ⟨herr, nm, rt2, hnm, hrt2, hres⟩
  · subst hres
    simp [LookupResult.skip] at hf
  · subst hres
    simp [LookupResult.errs] at hf
  · subst hres
    simp [LookupResult.skip] at hf
  · subst hres
    simp only [LookupResult.ofItem, Option.some.injEq, Item.funcItem.injEq]
      at hf
    obtain ⟨he01abi, heret⟩ := List.append_eq_nil.mp herr
    obtain ⟨he01, heabi⟩ := List.append_eq_nil.mp he01abi
    obtain ⟨he0, he1⟩ := List.append_eq_nil.mp he01
    rcases hret with ⟨rt, hconv, hrtTy, _⟩ | ⟨_, _, hbad⟩
    · subst he0
      subst he1
      rw [hrtTy] at hrt2
      simp only [Option.some.injEq] at hrt2
      subst hrt2
      exact ⟨params0, pairs, params1, rt, lps, nm, hts, hpp, hproc, heabi,
        hconv, hlps, hnm, hf.symm⟩
    · rw [hbad] at heret
      cases heret

/-- Exhaustive characterization of the `__this` synthesis step. -/
theorem thisStep_cases (env : Env) (known : List Nat) (fd : FunctionDecl)
    (params0 : List FuncParam) (errors0 : List String)
    (h : thisStep env known fd = some (params0, errors0)) :
    (fd.method = none ∧ params0 = [] ∧ errors0 = []) ∨
    (∃ m, fd.method = some m ∧ m.isInstance = false ∧ params0 = [] ∧
      errors0 = []) ∨
    (∃ m t, fd.method = some m ∧ m.isInstance = true ∧
      convertType env known m.thisType
        (fd.lifetimes.map (fun lf => lf.thisLifetimes)) false = .ok t ∧
      params0 = [⟨t, "__this"⟩] ∧ errors0 = []) ∨
    (∃ m msg pl, fd.method = some m ∧ m.isInstance = true ∧
      convertType env known m.thisType
        (fd.lifetimes.map (fun lf => lf.thisLifetimes)) false =
        .error (.unsupported msg pl) ∧
      params0 = [] ∧ errors0 = [msg]) := by
  unfold thisStep at h
  cases hm : fd.method with
  | none =>
    rw [hm] at h
    dsimp only at h
    simp only [Option.some.injEq, Prod.mk.injEq] at h
    exact Or.inl ⟨rfl, h.1.symm, h.2.symm⟩
  | some m =>
    rw [hm] at h
    dsimp only at h
    cases hinst : m.isInstance with
    | false =>
      rw [hinst] at h
      simp only [Bool.false_eq_true, if_false, Option.some.injEq,
        Prod.mk.injEq] at h
      exact Or.inr (Or.inl ⟨m, rfl, hinst, h.1.symm, h.2.symm⟩)
    | true =>
      rw [hinst] at h
      simp only [if_true] at h
      cases hconv : convertType env known m.thisType
          (fd.lifetimes.map (fun lf => lf.thisLifetimes)) false with
      | error e =>
        cases e with
        | fatalErr =>
          rw [hconv] at h
          cases h
        | unsupported msg pl =>
          rw [hconv] at h
          simp only [Option.some.injEq, Prod.mk.injEq] at h
          exact Or.inr (Or.inr (Or.inr
            ⟨m, msg, pl, rfl, hinst, hconv, h.1.symm, h.2.symm⟩))
      | ok t =>
        rw [hconv] at h
        simp only [Option.some.injEq, Prod.mk.injEq] at h
        exact Or.inr (Or.inr (Or.inl ⟨m, t, rfl, hinst, hconv, h.1.symm,
          h.2.symm⟩))

/-- C7: for every emitted `Func` of a non-static member function, the
first parameter is the synthesized `__this` — its type the method's
`this` type converted non-nullable, consuming the `this`-lifetimes
slot — and it precedes all the formal parameters (the parameter-loop
output); an emitted `Func` of a static member function has exactly the
formal parameters, with no synthesized `__this`. -/
theorem c7_this_param_synthesis (env : Env) (known : List Nat)
    (fd : FunctionDecl) (res : LookupResult) (f : FuncIR) (m : MethodInfo)
    (h : importFunction env known fd = some res)
    (hf : res.item = some (.funcItem f))
    (hm : fd.method = some m) :
    (m.isInstance = true →
      ∃ t params1,
        convertType env known m.thisType
          (fd.lifetimes.map (fun lf => lf.thisLifetimes)) false = .ok t ∧
        f.params = ⟨t, "__this"⟩ :: params1 ∧
        ∃ pairs, paramPairs fd = some pairs ∧
          processParams env known pairs 0 = some (params1, [])) ∧
    (m.isInstance = false →
      ∃ pairs, paramPairs fd = some pairs ∧
        processParams env known pairs 0 = some (f.params, [])) := by
  obtain ⟨params0, pairs, params1, rt, lps, nm, hts, hpp, hproc, _, _, _, _,
    hfeq⟩ := importFunction_func_inversion env known fd res f h hf
  rcases thisStep_cases env known fd params0 [] hts with
    ⟨hnone, _, _⟩ | ⟨m2, hm2, hinst2, hp0, _⟩ |
    ⟨m2, t, hm2, hinst2, hconv2, hp0, _⟩ | ⟨m2, msg, pl, _, _, _, _, habs⟩
  · rw [hnone] at hm
    cases hm
  · rw [hm2] at hm
    injection hm with hm
    subst hm
    constructor
    · intro hinst
      rw [hinst] at hinst2
      cases hinst2
    · intro _
      subst hp0
      refine ⟨pairs, hpp, ?_⟩
      rw [hfeq]
      simpa using hproc
  · rw [hm2] at hm
    injection hm with hm
    subst hm
    constructor
    · intro _
      refine ⟨t, params1, hconv2, ?_, pairs, hpp, hproc⟩
      rw [hfeq]
      rw [hp0]
      rfl
    · intro hinst
      rw [hinst] at hinst2
      cases hinst2
  · cases habs

/-- C7 witness: the theorem applied to the concrete public instance
method `h` of record 1, whose emitted `Func` starts with the
synthesized `__this`. -/
theorem c7_this_param_synthesis_witness :
    (exMethodPub.isInstance = true →
      ∃ t params1,
        convertType exEnv [1] exMethodPub.thisType
          (exFdMethod.lifetimes.map (fun lf => lf.thisLifetimes)) false =
          .ok t ∧
        exFuncH.params = ⟨t, "__this"⟩ :: params1 ∧
        ∃ pairs, paramPairs exFdMethod = some pairs ∧
          processParams exEnv [1] pairs 0 = some (params1, [])) ∧
    (exMethodPub.isInstance = false →
      ∃ pairs, paramPairs exFdMethod = some pairs ∧
        processParams exEnv [1] pairs 0 = some (exFuncH.params, [])) :=
  c7_this_param_synthesis exEnv [1] exFdMethod
    (.ofItem (.funcItem exFuncH)) exFuncH exMethodPub rfl rfl rfl

/-- C4 counterexample: a private instance method with one parameter of
unsupported type. The parameter's conversion fails, so per the claim
the lookup result should be the error set
`["Parameter type 'X' is not supported"]`; the code instead discards
the recorded error at the member-access check and returns the empty
skip result (no item, no errors). -/
theorem c4_error_aggregation_counterexample :
    convertType exEnv [1] exBadTy none true =
      .error (.unsupported "Unsupported type 'X'" "X") ∧
    importFunction exEnv [1] exFdPriv = some ⟨none, []⟩ :=
  ⟨rfl, rfl⟩

/-- C4 (amended): for a current-target, non-deleted, non-template
function whose method parent (if any) is known and whose member access
(if any) is public: every parameter whose type fails to convert
contributes the error `"Parameter type '<T>' is not supported"` to the
result's error set and processing continues (all offending parameters
are reported in one pass); a `Func` item exists only with an empty
error set; a nonempty error set means no item; and when the name
translates, a `Func` item is emitted exactly when the error set is
empty. Non-public methods (see the counterexample) discard collected
errors and yield a silent skip instead. -/
theorem c4_function_error_aggregation (env : Env) (known : List Nat)
    (fd : FunctionDecl) (r : LookupResult)
    (h : importFunction env known fd = some r)
    (hcur : fd.owningTarget = env.currentTarget)
    (hdel : fd.isDeleted = false) (htem : fd.isTemplated = false)
    (hpar : ∀ m, fd.method = some m → known.contains m.parentId = true)
    (hpub : ∀ m, fd.method = some m → m.access = .publicAcc) :
    (∀ pairs, paramPairs fd = some pairs →
      ∀ p slot, (p, slot) ∈ pairs →
        (∀ t, convertType env known p.type slot true ≠ .ok t) →
        ("Parameter type '" ++ p.type.qspell ++ "' is not supported") ∈
          r.errors) ∧
    (r.item.isSome → r.errors = []) ∧
    (r.errors ≠ [] → r.item = none) ∧
    ((getTranslatedName fd.name none).isSome →
      (r.item.isSome ↔ r.errors = [])) := by
  have hrest := importFunction_to_rest env known fd r h hcur hdel htem hpar
  obtain ⟨params0, errors0, pairs, params1, errors1, retTy, retErrs, hts,
    hpp, hproc, hret, hfin⟩ := importFunctionRest_inversion env known fd
    r hrest
  obtain ⟨lps, hlps, hcases⟩ := finishImportFunction_cases fd _ _ _ r hfin
  rcases hcases with ⟨m, hm, hneq, _⟩ | ⟨hne, hres⟩ | ⟨herr, hnm, hres⟩ |
    ⟨herr, nm, rt2, hnm, hrt2, hres⟩
  · exact absurd (hpub m hm) hneq
  · subst hres
    refine ⟨?_, ?_, fun _ => rfl, ?_⟩
    · intro pairs2 hpp2 p slot hmem hnok
      rw [hpp] at hpp2
      injection hpp2 with hpp2
      subst hpp2
      have hmem1 := processParams_mem_errors env known pairs 0 params1
        errors1 hproc p slot hmem hnok
      show _ ∈ errors0 ++ errors1 ++ returnAbiErrors env fd ++ retErrs
      exact List.mem_append_left _ (List.mem_append_left _
        (List.mem_append_right _ hmem1))
    · intro hi
      simp [LookupResult.errs] at hi
    · intro hnms
      constructor
      · intro hi
        simp [LookupResult.errs] at hi
      · intro he
        exact absurd he hne
  · obtain ⟨he01, _⟩ := List.append_eq_nil.mp
      (List.append_eq_nil.mp herr).1
    obtain ⟨_, he1⟩ := List.append_eq_nil.mp he01
    subst hres
    refine ⟨?_, fun hi => rfl, fun hne => absurd rfl hne, ?_⟩
    · intro pairs2 hpp2 p slot hmem hnok
      rw [hpp] at hpp2
      injection hpp2 with hpp2
      subst hpp2
      have hmem1 := processParams_mem_errors env known pairs 0 params1
        errors1 hproc p slot hmem hnok
      rw [he1] at hmem1
      cases hmem1
    · intro hnms
      rw [hnm] at hnms
      cases hnms
  · obtain ⟨he01, _⟩ := List.append_eq_nil.mp
      (List.append_eq_nil.mp herr).1
    obtain ⟨_, he1⟩ := List.append_eq_nil.mp he01
    subst hres
    refine ⟨?_, fun _ => rfl, fun hne => absurd rfl hne, fun _ => ?_⟩
    · intro pairs2 hpp2 p slot hmem hnok
      rw [hpp] at hpp2
      injection hpp2 with hpp2
      subst hpp2
      have hmem1 := processParams_mem_errors env known pairs 0 params1
        errors1 hproc p slot hmem hnok
      rw [he1] at hmem1
      cases hmem1
    · simp [LookupResult.ofItem]

/-- C4 witness: the amended theorem applied to the public variant of
the counterexample method: here the error set is returned in full. -/
theorem c4_function_error_aggregation_witness :
    (∀ pairs, paramPairs exFdPubBad = some pairs →
      ∀ p slot, (p, slot) ∈ pairs →
        (∀ t, convertType exEnv [1] p.type slot true ≠ .ok t) →
        ("Parameter type '" ++ p.type.qspell ++ "' is not supported") ∈
          (LookupResult.errs ["Parameter type 'X' is not supported"]).errors) ∧
    ((LookupResult.errs
        ["Parameter type 'X' is not supported"]).item.isSome →
      (LookupResult.errs
        ["Parameter type 'X' is not supported"]).errors = []) ∧
    ((LookupResult.errs
        ["Parameter type 'X' is not supported"]).errors ≠ [] →
      (LookupResult.errs
        ["Parameter type 'X' is not supported"]).item = none) ∧
    ((getTranslatedName exFdPubBad.name none).isSome →
      ((LookupResult.errs
          ["Parameter type 'X' is not supported"]).item.isSome ↔
        (LookupResult.errs
          ["Parameter type 'X' is not supported"]).errors = [])) :=
  c4_function_error_aggregation exEnv [1] exFdPubBad
    (.errs ["Parameter type 'X' is not supported"]) rfl rfl rfl rfl
    (fun m hm => by cases hm; rfl) (fun m hm => by cases hm; rfl)

theorem collectAllLifetimes_none (fd : FunctionDecl)
    (hor : fd.lifetimes = none) : collectAllLifetimes fd = [] := by
  unfold collectAllLifetimes
  rw [hor]

theorem emitFunc_ne_none (fd : FunctionDecl) (params : List FuncParam)
    (errors : List String) (returnType : Option MappedType)
    (lifetimeParams : List LifetimeIR) (mm : Option MemberFuncMetadata)
    (hrt : returnType = none → errors ≠ []) :
    emitFunc fd params errors returnType lifetimeParams mm ≠ none := by
  unfold emitFunc
  split
  · simp
  · rename_i hne
    have he : errors = [] := not_not.mp hne
    cases hrty : returnType with
    | none => exact absurd he (hrt hrty)
    | some rt =>
      dsimp only
      cases getTranslatedName fd.name none <;> simp

theorem finishImportFunction_ne_none (fd : FunctionDecl)
    (params : List FuncParam) (errors : List String)
    (returnType : Option MappedType)
    (hb : ∃ lps, buildLifetimeParams fd.lifetimeNames
      (collectAllLifetimes fd) = some lps)
    (hrt : returnType = none → errors ≠ []) :
    finishImportFunction fd params errors returnType ≠ none := by
  obtain ⟨lps, hlps⟩ := hb
  unfold finishImportFunction
  rw [hlps]
  dsimp only
  cases fd.method with
  | none =>
    dsimp only
    exact emitFunc_ne_none fd params errors returnType _ none hrt
  | some m =>
    dsimp only
    cases m.access with
    | publicAcc =>
      dsimp only
      exact emitFunc_ne_none fd params errors returnType _ _ hrt
    | protectedAcc => simp
    | privateAcc => simp
    | noneAcc => simp

theorem thisStep_some_of_no_oracle (env : Env) (known : List Nat)
    (fd : FunctionDecl) (hor : fd.lifetimes = none) :
    ∃ out, thisStep env known fd = some out := by
  unfold thisStep
  cases fd.method with
  | none => exact ⟨_, rfl⟩
  | some m =>
    dsimp only
    cases hinst : m.isInstance with
    | false => simp
    | true =>
      simp only [if_true]
      rw [hor]
      simp only [Option.map_none']
      cases hconv : convertType env known m.thisType none false with
      | error e =>
        cases e with
        | fatalErr =>
          exact absurd hconv (convertType_none_ne_fatal env known m.thisType
            false)
        | unsupported msg pl => exact ⟨_, rfl⟩
      | ok t => exact ⟨_, rfl⟩

theorem processParams_some_of_none_slots (env : Env) (known : List Nat) :
    ∀ (ps : List ParamDecl) (i : Nat),
    ∃ out, processParams env known (ps.map (fun p => (p, none))) i =
      some out := by
  intro ps
  induction ps with
  | nil => exact fun i => ⟨_, rfl⟩
  | cons p rest ih =>
    intro i
    simp only [List.map_cons, processParams]
    cases hconv : convertType env known p.type none true with
    | error e =>
      cases e with
      | fatalErr =>
        exact absurd hconv (convertType_none_ne_fatal env known p.type true)
      | unsupported msg pl =>
        obtain ⟨out, hout⟩ := ih (i + 1)
        rw [hout]
        exact ⟨_, rfl⟩
    | ok t =>
      obtain ⟨pid, hpid⟩ := translateParamIdentifier_total p.name i
      rw [hpid]
      dsimp only
      obtain ⟨out, hout⟩ := ih (i + 1)
      rw [hout]
      exact ⟨_, rfl⟩

theorem paramPairs_of_no_oracle (fd : FunctionDecl)
    (hor : fd.lifetimes = none) :
    paramPairs fd = some (fd.params.map (fun p => (p, none))) := by
  unfold paramPairs
  rw [hor]

/-- Forward evaluation of `importFunctionRest` given its stages. -/
theorem importFunctionRest_eq (env : Env) (known : List Nat)
    (fd : FunctionDecl) (params0 : List FuncParam) (errors0 : List String)
    (pairs : List (ParamDecl × Option (List Nat)))
    (params1 : List FuncParam) (errors1 : List String)
    (hts : thisStep env known fd = some (params0, errors0))
    (hpp : paramPairs fd = some pairs)
    (hproc : processParams env known pairs 0 = some (params1, errors1)) :
    importFunctionRest env known fd =
      match convertType env known fd.returnType
          (fd.lifetimes.map (fun lf => lf.returnLifetimes)) true with
      | .error .fatalErr => none
      | .error (.unsupported _ _) =>
        finishImportFunction fd (params0 ++ params1)
          (errors0 ++ errors1 ++ returnAbiErrors env fd ++
            ["Return type '" ++ fd.returnType.qspell ++ "' is not supported"])
          none
      | .ok rt =>
        finishImportFunction fd (params0 ++ params1)
          (errors0 ++ errors1 ++ returnAbiErrors env fd) (some rt) := by
  unfold importFunctionRest
  rw [hts]
  dsimp only
  rw [hpp]
  dsimp only
  rw [hproc]

/-- Forward evaluation of `importFunction`'s early rules. -/
theorem importFunction_eq_rest (env : Env) (known : List Nat)
    (fd : FunctionDecl)
    (hcur : fd.owningTarget = env.currentTarget)
    (hdel : fd.isDeleted = false) (htem : fd.isTemplated = false)
    (hpar : ∀ m, fd.method = some m → known.contains m.parentId = true) :
    importFunction env known fd = importFunctionRest env known fd := by
  unfold importFunction
  rw [if_neg (not_not_intro hcur)]
  rw [hdel]
  simp only [Bool.false_eq_true, if_false]
  rw [htem]
  simp only [Bool.false_eq_true, if_false]
  cases hm : fd.method with
  | none => rfl
  | some m =>
    dsimp only
    rw [if_pos (hpar m hm)]

theorem forall2_mem_right {α β : Type} {R : α → β → Prop} :
    ∀ {l1 : List α} {l2 : List β}, List.Forall₂ R l1 l2 →
      ∀ b ∈ l2, ∃ a ∈ l1, R a b := by
  intro l1 l2 h
  induction h with
  | nil => intro b hb; cases hb
  | cons hR _ ih =>
    intro b hb
    rcases List.mem_cons.mp hb with rfl | hb2
    · exact ⟨_, List.mem_cons_self _ _, hR⟩
    · obtain ⟨a, ha, hab⟩ := ih b hb2
      exact ⟨a, List.mem_cons_of_mem _ ha, hab⟩

/-- Whether a conversion succeeds, and whether it falls through as
unsupported, does not depend on the lifetime slots: they only select
the lifetime ids decorating the result (or trip the empty-stack
`CHECK`). -/
theorem convertTypeCore_indep (env : Env) (known : List Nat) :
    ∀ (qt : QualType) (s : Option (List Nat)) (nb : Bool)
      (x : Option MappedType),
      convertTypeCore env known qt s nb = .ok x →
      ∃ y, convertTypeCore env known qt none nb = .ok y ∧
        (x = none ↔ y = none) := by
  intro qt
  induction qt with
  | pointer pointee c u q ih =>
    intro s nb x h
    cases s with
    | none => exact ⟨x, h, Iff.rfl⟩
    | some ls =>
      simp only [convertTypeCore] at h ⊢
      cases hlk : List.lookup u wellKnownTypes with
      | some rs =>
        rw [hlk] at h
        dsimp only at h
        simp only [Except.ok.injEq] at h
        exact ⟨some (.simple rs u false), rfl, by subst h; simp⟩
      | none =>
        rw [hlk] at h
        dsimp only at h ⊢
        cases hgl : ls.getLast? with
        | none =>
          rw [hgl] at h
          dsimp only at h
          cases h
        | some lt =>
          rw [hgl] at h
          dsimp only at h
          cases hin : convertTypeCore env known pointee (some ls.dropLast)
              true with
          | error e =>
            rw [hin] at h
            dsimp only at h
            cases h
          | ok xin =>
            rw [hin] at h
            obtain ⟨y, hy, hiff⟩ := ih (some ls.dropLast) true xin hin
            rw [hy]
            cases xin with
            | none =>
              have hyn : y = none := hiff.mp rfl
              subst hyn
              dsimp only at h ⊢
              simp only [Except.ok.injEq] at h
              exact ⟨none, rfl, by subst h; simp⟩
            | some pin =>
              cases y with
              | none => exact absurd (hiff.mpr rfl) (by simp)
              | some qy =>
                dsimp only at h ⊢
                simp only [Except.ok.injEq] at h
                exact ⟨some (.pointerTo (qy.setCcConst pointee.isConst) none
                  nb false), rfl, by subst h; simp⟩
  | lvalueRef pointee c u q ih =>
    intro s nb x h
    cases s with
    | none => exact ⟨x, h, Iff.rfl⟩
    | some ls =>
      simp only [convertTypeCore] at h ⊢
      cases hlk : List.lookup u wellKnownTypes with
      | some rs =>
        rw [hlk] at h
        dsimp only at h
        simp only [Except.ok.injEq] at h
        exact ⟨some (.simple rs u false), rfl, by subst h; simp⟩
      | none =>
        rw [hlk] at h
        dsimp only at h ⊢
        cases hgl : ls.getLast? with
        | none =>
          rw [hgl] at h
          dsimp only at h
          cases h
        | some lt =>
          rw [hgl] at h
          dsimp only at h
          cases hin : convertTypeCore env known pointee (some ls.dropLast)
              true with
          | error e =>
            rw [hin] at h
            dsimp only at h
            cases h
          | ok xin =>
            rw [hin] at h
            obtain ⟨y, hy, hiff⟩ := ih (some ls.dropLast) true xin hin
            rw [hy]
            cases xin with
            | none =>
              have hyn : y = none := hiff.mp rfl
              subst hyn
              dsimp only at h ⊢
              simp only [Except.ok.injEq] at h
              exact ⟨none, rfl, by subst h; simp⟩
            | some pin =>
              cases y with
              | none => exact absurd (hiff.mpr rfl) (by simp)
              | some qy =>
                dsimp only at h ⊢
                simp only [Except.ok.injEq] at h
                exact ⟨some (.lvalueRefTo (qy.setCcConst pointee.isConst)
                  none false), rfl, by subst h; simp⟩
  | builtin k c u q =>
    intro s nb x h
    cases s with
    | none => exact ⟨x, h, Iff.rfl⟩
    | some ls =>
      have heq : convertTypeCore env known (.builtin k c u q) none nb =
          convertTypeCore env known (.builtin k c u q) (some ls) nb := by
        simp only [convertTypeCore]
      rw [heq, h]
      exact ⟨x, rfl, Iff.rfl⟩
  | tagType d c u q =>
    intro s nb x h
    cases s with
    | none => exact ⟨x, h, Iff.rfl⟩
    | some ls =>
      have heq : convertTypeCore env known (.tagType d c u q) none nb =
          convertTypeCore env known (.tagType d c u q) (some ls) nb := by
        simp only [convertTypeCore]
      rw [heq, h]
      exact ⟨x, rfl, Iff.rfl⟩
  | typedefType d c u q =>
    intro s nb x h
    cases s with
    | none => exact ⟨x, h, Iff.rfl⟩
    | some ls =>
      have heq : convertTypeCore env known (.typedefType d c u q) none nb =
          convertTypeCore env known (.typedefType d c u q) (some ls) nb := by
        simp only [convertTypeCore]
      rw [heq, h]
      exact ⟨x, rfl, Iff.rfl⟩
  | otherType c u q =>
    intro s nb x h
    cases s with
    | none => exact ⟨x, h, Iff.rfl⟩
    | some ls =>
      have heq : convertTypeCore env known (.otherType c u q) none nb =
          convertTypeCore env known (.otherType c u q) (some ls) nb := by
        simp only [convertTypeCore]
      rw [heq, h]
      exact ⟨x, rfl, Iff.rfl⟩

theorem convertType_indep_ok (env : Env) (known : List Nat) (qt : QualType)
    (s : Option (List Nat)) (nb : Bool) (t : MappedType)
    (h : convertType env known qt s nb = .ok t) :
    ∃ t2, convertType env known qt none nb = .ok t2 := by
  unfold convertType at h ⊢
  cases hc : convertTypeCore env known qt s nb with
  | error e =>
    rw [hc] at h
    cases h
  | ok x =>
    rw [hc] at h
    cases x with
    | none =>
      dsimp only at h
      cases h
    | some tt =>
      obtain ⟨y, hy, hiff⟩ := convertTypeCore_indep env known qt s nb
        (some tt) hc
      rw [hy]
      cases y with
      | none => exact absurd (hiff.mpr rfl) (by simp)
      | some yy => exact ⟨_, rfl⟩

theorem convertType_indep_err (env : Env) (known : List Nat) (qt : QualType)
    (s : Option (List Nat)) (nb : Bool) (m p : String)
    (h : convertType env known qt s nb = .error (.unsupported m p)) :
    convertType env known qt none nb = .error (.unsupported m p) := by
  unfold convertType at h ⊢
  cases hc : convertTypeCore env known qt s nb with
  | error e =>
    rw [hc] at h
    dsimp only at h
    simp at h
  | ok x =>
    rw [hc] at h
    cases x with
    | some tt =>
      dsimp only at h
      cases h
    | none =>
      dsimp only at h
      obtain ⟨y, hy, hiff⟩ := convertTypeCore_indep env known qt s nb none hc
      have hyn : y = none := hiff.mp rfl
      subst hyn
      rw [hy]
      exact h

/-- A run of the parameter loop with lifetime slots transfers to the
slot-free loop: the same errors are collected, in the same order. -/
theorem processParams_indep (env : Env) (known : List Nat) :
    ∀ (ps : List ParamDecl) (lss : List (List Nat)) (i : Nat)
      (params1 : List FuncParam) (errors1 : List String),
      ps.length = lss.length →
      processParams env known (ps.zip (lss.map some)) i =
        some (params1, errors1) →
      ∃ params2, processParams env known (ps.map (fun p => (p, none))) i =
        some (params2, errors1) := by
  intro ps
  induction ps with
  | nil =>
    intro lss i params1 errors1 hlen h
    simp only [List.zip_nil_left, processParams, Option.some.injEq,
      Prod.mk.injEq] at h
    obtain ⟨h1, h2⟩ := h
    subst h2
    simp only [List.map_nil, processParams]
    exact ⟨[], rfl⟩
  | cons p ps ih =>
    intro lss i params1 errors1 hlen h
    cases lss with
    | nil => simp at hlen
    | cons l lss =>
      have hlen2 : ps.length = lss.length := by simpa using hlen
      simp only [List.map_cons, List.zip_cons_cons, processParams] at h
      cases hconv : convertType env known p.type (some l) true with
      | error e =>
        cases e with
        | fatalErr =>
          rw [hconv] at h
          dsimp only at h
          cases h
        | unsupported m pl =>
          rw [hconv] at h
          dsimp only at h
          split at h
          · cases h
          · rename_i ps0 es0 heq
            simp only [Option.some.injEq, Prod.mk.injEq] at h
            obtain ⟨h1, h2⟩ := h
            subst h2
            obtain ⟨params2, hp2⟩ := ih lss (i + 1) ps0 es0 hlen2 heq
            have hc2 := convertType_indep_err env known p.type (some l) true
              m pl hconv
            simp only [List.map_cons, processParams]
            rw [hc2]
            dsimp only
            rw [hp2]
            exact ⟨params2, rfl⟩
      | ok t =>
        rw [hconv] at h
        dsimp only at h
        obtain ⟨pid, hpid⟩ := translateParamIdentifier_total p.name i
        rw [hpid] at h
        dsimp only at h
        split at h
        · cases h
        · rename_i ps0 es0 heq
          simp only [Option.some.injEq, Prod.mk.injEq] at h
          obtain ⟨h1, h2⟩ := h
          subst h2
          obtain ⟨params2, hp2⟩ := ih lss (i + 1) ps0 es0 hlen2 heq
          obtain ⟨t2, hc2⟩ := convertType_indep_ok env known p.type (some l)
            true t hconv
          simp only [List.map_cons, processParams]
          rw [hc2]
          dsimp only
          rw [hpid]
          dsimp only
          rw [hp2]
          exact ⟨⟨t2, pid⟩ :: params2, rfl⟩

/-- The `__this` step with an oracle result transfers to the
oracle-failed declaration: the same errors are recorded. -/
theorem thisStep_indep (env : Env) (known : List Nat)
    (fd fd2 : FunctionDecl) (lf : FunctionLifetimes)
    (params0 : List FuncParam) (errors0 : List String)
    (hor : fd.lifetimes = none)
    (hmth : fd2.method = fd.method)
    (hl : fd2.lifetimes = some lf)
    (h : thisStep env known fd2 = some (params0, errors0)) :
    ∃ ps0, thisStep env known fd = some (ps0, errors0) := by
  unfold thisStep at h ⊢
  rw [hmth, hl] at h
  rw [hor]
  simp only [Option.map_none']
  simp only [Option.map_some'] at h
  cases hm : fd.method with
  | none =>
    rw [hm] at h
    dsimp only at h
    simp only [Option.some.injEq, Prod.mk.injEq] at h
    exact ⟨[], by rw [← h.2]⟩
  | some m =>
    rw [hm] at h
    dsimp only at h ⊢
    cases hinst : m.isInstance with
    | false =>
      rw [hinst] at h
      simp only [Bool.false_eq_true, if_false] at h ⊢
      simp only [Option.some.injEq, Prod.mk.injEq] at h
      exact ⟨[], by rw [← h.2]⟩
    | true =>
      rw [hinst] at h
      simp only [if_true] at h ⊢
      cases hconv : convertType env known m.thisType
          (some lf.thisLifetimes) false with
      | error e =>
        cases e with
        | fatalErr =>
          rw [hconv] at h
          cases h
        | unsupported msg pl =>
          rw [hconv] at h
          dsimp only at h
          simp only [Option.some.injEq, Prod.mk.injEq] at h
          have hc2 := convertType_indep_err env known m.thisType
            (some lf.thisLifetimes) false msg pl hconv
          rw [hc2]
          dsimp only
          exact ⟨[], by rw [← h.2]⟩
      | ok t =>
        rw [hconv] at h
        dsimp only at h
        simp only [Option.some.injEq, Prod.mk.injEq] at h
        obtain ⟨t2, hc2⟩ := convertType_indep_ok env known m.thisType
          (some lf.thisLifetimes) false t hconv
        rw [hc2]
        dsimp only
        exact ⟨[⟨t2, "__this"⟩], by rw [← h.2]⟩

/-- Inversion of the `CHECK_EQ` pairing when the oracle succeeded. -/
theorem paramPairs_some_oracle (fd2 : FunctionDecl) (lf : FunctionLifetimes)
    (pairs : List (ParamDecl × Option (List Nat)))
    (hl : fd2.lifetimes = some lf)
    (h : paramPairs fd2 = some pairs) :
    lf.paramLifetimes.length = fd2.params.length ∧
    pairs = fd2.params.zip (lf.paramLifetimes.map some) := by
  unfold paramPairs at h
  rw [hl] at h
  dsimp only at h
  split at h
  · rename_i hlen
    simp only [Option.some.injEq] at h
    exact ⟨hlen, h.symm⟩
  · cases h

/-- The emission tail compares across two declarations sharing a name:
with the same error list and agreeing return-conversion success, the
results carry the same errors and agree on whether an item was
produced. -/
theorem emitFunc_indep (fd2 fd : FunctionDecl)
    (params params2 : List FuncParam) (errors : List String)
    (rty2 rty : Option MappedType) (lps2 lps : List LifetimeIR)
    (mm2 mm : Option MemberFuncMetadata) (r2 : LookupResult)
    (hnm : fd2.name = fd.name)
    (hiff : rty2 = none ↔ rty = none)
    (h : emitFunc fd2 params errors rty2 lps2 mm2 = some r2) :
    ∃ r, emitFunc fd params2 errors rty lps mm = some r ∧
      r.errors = r2.errors ∧ (r.item.isSome ↔ r2.item.isSome) := by
  unfold emitFunc at h ⊢
  by_cases he : errors ≠ []
  · rw [if_pos he] at h ⊢
    simp only [Option.some.injEq] at h
    subst h
    exact ⟨.errs errors, rfl, rfl, Iff.rfl⟩
  · rw [if_neg he] at h ⊢
    cases rty2 with
    | none =>
      dsimp only at h
      cases h
    | some rt2 =>
      dsimp only at h
      cases rty with
      | none =>
        exact absurd (hiff.mpr rfl) (by simp)
      | some rt =>
        dsimp only
        rw [hnm] at h
        cases hgt : getTranslatedName fd.name none with
        | some nm =>
          rw [hgt] at h
          dsimp only at h ⊢
          simp only [Option.some.injEq] at h
          subst h
          exact ⟨_, rfl, rfl, Iff.rfl⟩
        | none =>
          rw [hgt] at h
          dsimp only at h ⊢
          simp only [Option.some.injEq] at h
          subst h
          exact ⟨.skip, rfl, rfl, Iff.rfl⟩

/-- The finish stage compares across an oracle-succeeded declaration
and its oracle-failed counterpart: same errors, same item-or-not. -/
theorem finishImportFunction_indep (fd fd2 : FunctionDecl)
    (params params2 : List FuncParam) (errors : List String)
    (rty2 rty : Option MappedType) (r2 : LookupResult)
    (hor : fd.lifetimes = none)
    (hnm : fd2.name = fd.name)
    (hmth : fd2.method = fd.method)
    (hiff : rty2 = none ↔ rty = none)
    (h : finishImportFunction fd2 params errors rty2 = some r2) :
    ∃ r, finishImportFunction fd params2 errors rty = some r ∧
      r.errors = r2.errors ∧ (r.item.isSome ↔ r2.item.isSome) := by
  unfold finishImportFunction at h ⊢
  rw [collectAllLifetimes_none fd hor]
  simp only [buildLifetimeParams]
  cases hbl : buildLifetimeParams fd2.lifetimeNames
      (collectAllLifetimes fd2) with
  | none =>
    rw [hbl] at h
    cases h
  | some lps2 =>
    rw [hbl] at h
    dsimp only at h ⊢
    rw [hmth] at h
    cases hm : fd.method with
    | none =>
      rw [hm] at h
      dsimp only at h ⊢
      exact emitFunc_indep fd2 fd params params2 errors rty2 rty _ _ none
        none r2 hnm hiff h
    | some m =>
      rw [hm] at h
      dsimp only at h ⊢
      cases hacc : m.access with
      | publicAcc =>
        rw [hacc] at h
        dsimp only at h ⊢
        exact emitFunc_indep fd2 fd params params2 errors rty2 rty _ _ _ _
          r2 hnm hiff h
      | protectedAcc =>
        rw [hacc] at h
        dsimp only at h ⊢
        simp only [Option.some.injEq] at h
        subst h
        exact ⟨.skip, rfl, rfl, Iff.rfl⟩
      | privateAcc =>
        rw [hacc] at h
        dsimp only at h ⊢
        simp only [Option.some.injEq] at h
        subst h
        exact ⟨.skip, rfl, rfl, Iff.rfl⟩
      | noneAcc =>
        rw [hacc] at h
        dsimp only at h ⊢
        simp only [Option.some.injEq] at h
        subst h
        exact ⟨.skip, rfl, rfl, Iff.rfl⟩

/-- The whole post-early-rules import compares across an
oracle-succeeded declaration and its oracle-failed counterpart. -/
theorem importFunctionRest_indep (env : Env) (known : List Nat)
    (fd fd2 : FunctionDecl) (lf : FunctionLifetimes) (r2 : LookupResult)
    (hor : fd.lifetimes = none)
    (hl : fd2.lifetimes = some lf)
    (hmth : fd2.method = fd.method)
    (hp : fd2.params = fd.params)
    (hrty : fd2.returnType = fd.returnType)
    (hnm : fd2.name = fd.name)
    (h : importFunctionRest env known fd2 = some r2) :
    ∃ r, importFunctionRest env known fd = some r ∧
      r.errors = r2.errors ∧ (r.item.isSome ↔ r2.item.isSome) := by
  obtain ⟨params0, errors0, pairs, params1, errors1, retTy, retErrs,
    hts2, hpp2, hproc2, hret2, hfin2⟩ :=
    importFunctionRest_inversion env known fd2 r2 h
  obtain ⟨ps0, hts⟩ := thisStep_indep env known fd fd2 lf params0 errors0
    hor hmth hl hts2
  obtain ⟨hlen, hpairs⟩ := paramPairs_some_oracle fd2 lf pairs hl hpp2
  subst hpairs
  rw [hp] at hproc2 hlen
  obtain ⟨ps1, hproc⟩ := processParams_indep env known fd.params
    lf.paramLifetimes 0 params1 errors1 hlen.symm hproc2
  have hpp := paramPairs_of_no_oracle fd hor
  have heval := importFunctionRest_eq env known fd ps0 errors0
    (fd.params.map (fun p => (p, none))) ps1 errors1 hts hpp hproc
  rw [hor] at heval
  simp only [Option.map_none'] at heval
  have habi : returnAbiErrors env fd2 = returnAbiErrors env fd := by
    unfold returnAbiErrors byValueNonTrivialRecord
    rw [hrty]
  rcases hret2 with ⟨rt2, hconv2, hretTy, hretErrs⟩ |
    ⟨⟨msg, pl, hconv2⟩, hretTy, hretErrs⟩
  · subst hretTy
    subst hretErrs
    obtain ⟨rt, hconv⟩ := convertType_indep_ok env known fd2.returnType
      (fd2.lifetimes.map (fun l => l.returnLifetimes)) true rt2 hconv2
    rw [hrty] at hconv
    rw [hconv] at heval
    dsimp only at heval
    rw [habi, List.append_nil] at hfin2
    obtain ⟨r, hfin, herr, hitem⟩ := finishImportFunction_indep fd fd2
      (params0 ++ params1) (ps0 ++ ps1)
      (errors0 ++ errors1 ++ returnAbiErrors env fd) (some rt2) (some rt)
      r2 hor hnm hmth (by simp) hfin2
    refine ⟨r, ?_, herr, hitem⟩
    rw [heval]
    exact hfin
  · subst hretTy
    subst hretErrs
    have hconv := convertType_indep_err env known fd2.returnType
      (fd2.lifetimes.map (fun l => l.returnLifetimes)) true msg pl hconv2
    rw [hrty] at hconv
    rw [hconv] at heval
    dsimp only at heval
    rw [habi, hrty] at hfin2
    obtain ⟨r, hfin, herr, hitem⟩ := finishImportFunction_indep fd fd2
      (params0 ++ params1) (ps0 ++ ps1)
      (errors0 ++ errors1 ++ returnAbiErrors env fd ++
        ["Return type '" ++ fd.returnType.qspell ++ "' is not supported"])
      none none r2 hor hnm hmth Iff.rfl hfin2
    refine ⟨r, ?_, herr, hitem⟩
    rw [heval]
    exact hfin

/-- C9: if the lifetime-inference oracle fails for a function
declaration (that is otherwise imported: current target, not deleted,
not templated, parent known), the function is still imported: (a) the
run is never aborted; (b) every emitted `Func` has an empty
`lifetime_params` list and no lifetime id anywhere in its return type
or parameter types; (c) compared with any oracle-succeeded run on the
same declaration, the oracle-failed run collects exactly the same
errors and agrees on whether an item is produced — so oracle failure
alone never produces an `UnsupportedItem`. -/
theorem c9_oracle_failure_graceful (env : Env) (known : List Nat)
    (fd : FunctionDecl)
    (hor : fd.lifetimes = none)
    (hcur : fd.owningTarget = env.currentTarget)
    (hdel : fd.isDeleted = false) (htem : fd.isTemplated = false)
    (hpar : ∀ m, fd.method = some m → known.contains m.parentId = true) :
    importFunction env known fd ≠ none ∧
    (∀ r f, importFunction env known fd = some r →
      r.item = some (.funcItem f) →
      f.lifetimeParams = [] ∧ f.returnType.lifetimeIds = [] ∧
      ∀ p ∈ f.params, p.type.lifetimeIds = []) ∧
    (∀ lf r2,
      importFunction env known { fd with lifetimes := some lf } = some r2 →
      ∃ r, importFunction env known fd = some r ∧
        r.errors = r2.errors ∧ (r.item.isSome ↔ r2.item.isSome)) := by
  refine ⟨?_, ?_, ?_⟩
  · rw [importFunction_eq_rest env known fd hcur hdel htem hpar]
    obtain ⟨⟨params0, errors0⟩, hts⟩ :=
      thisStep_some_of_no_oracle env known fd hor
    have hpp := paramPairs_of_no_oracle fd hor
    obtain ⟨⟨params1, errors1⟩, hproc⟩ :=
      processParams_some_of_none_slots env known fd.params 0
    have heval := importFunctionRest_eq env known fd params0 errors0
      (fd.params.map (fun p => (p, none))) params1 errors1 hts hpp hproc
    rw [heval, hor]
    simp only [Option.map_none']
    have hbl : ∃ lps, buildLifetimeParams fd.lifetimeNames
        (collectAllLifetimes fd) = some lps := by
      rw [collectAllLifetimes_none fd hor]
      exact ⟨[], rfl⟩
    cases hconv : convertType env known fd.returnType none true with
    | error e =>
      cases e with
      | fatalErr =>
        exact absurd hconv (convertType_none_ne_fatal env known
          fd.returnType true)
      | unsupported m pl =>
        dsimp only
        exact finishImportFunction_ne_none fd _ _ none hbl
          (fun _ => by simp)
    | ok rt =>
      dsimp only
      exact finishImportFunction_ne_none fd _ _ (some rt) hbl
        (fun hc => absurd hc (Option.some_ne_none rt))
  · intro r f h hf
    obtain ⟨params0, pairs, params1, rt, lps, nm, hts, hpp, hproc, habi,
      hconv, hlps, hnm, hfeq⟩ :=
      importFunction_func_inversion env known fd r f h hf
    rw [hor] at hconv
    simp only [Option.map_none'] at hconv
    rw [collectAllLifetimes_none fd hor] at hlps
    simp only [buildLifetimeParams, Option.some.injEq] at hlps
    subst hlps
    subst hfeq
    refine ⟨by simp [List.insertionSort], ?_, ?_⟩
    · exact convertType_none_lifetimeIds env known fd.returnType true rt
        hconv
    · intro p hp
      dsimp only at hp
      rcases List.mem_append.mp hp with hp0 | hp1
      · rcases thisStep_cases env known fd params0 [] hts with
          ⟨_, hps, _⟩ | ⟨m, _, _, hps, _⟩ |
          ⟨m, t, _, _, hcv, hps, _⟩ | ⟨m, msg, pl, _, _, _, _, hbad⟩
        · rw [hps] at hp0
          cases hp0
        · rw [hps] at hp0
          cases hp0
        · rw [hps] at hp0
          rcases List.mem_singleton.mp hp0 with rfl
          rw [hor] at hcv
          simp only [Option.map_none'] at hcv
          exact convertType_none_lifetimeIds env known m.thisType false t
            hcv
        · cases hbad
      · rw [paramPairs_of_no_oracle fd hor] at hpp
        simp only [Option.some.injEq] at hpp
        subst hpp
        have hall := processParams_ok_forall2 env known _ 0 params1 hproc
        obtain ⟨⟨pd, slot⟩, hmem, hcv⟩ := forall2_mem_right hall p hp1
        obtain ⟨q, _, hq⟩ := List.mem_map.mp hmem
        injection hq with hq1 hq2
        subst hq1
        subst hq2
        exact convertType_none_lifetimeIds env known q.type true p.type hcv
  · intro lf r2 h2
    have hrest2 := importFunction_to_rest env known
      { fd with lifetimes := some lf } r2 h2 hcur hdel htem hpar
    obtain ⟨r, hrest, herr, hitem⟩ := importFunctionRest_indep env known fd
      { fd with lifetimes := some lf } lf r2 hor rfl rfl rfl rfl rfl hrest2
    refine ⟨r, ?_, herr, hitem⟩
    rw [importFunction_eq_rest env known fd hcur hdel htem hpar]
    exact hrest

/-- C9 witness: `exFdNoLife` — `int g(int &p1)` with the oracle
failed — at the environment `exEnv` with record 1 known. -/
theorem c9_oracle_failure_graceful_witness :
    importFunction exEnv [1] exFdNoLife ≠ none ∧
    (∀ r f, importFunction exEnv [1] exFdNoLife = some r →
      r.item = some (.funcItem f) →
      f.lifetimeParams = [] ∧ f.returnType.lifetimeIds = [] ∧
      ∀ p ∈ f.params, p.type.lifetimeIds = []) ∧
    (∀ lf r2, importFunction exEnv [1]
        { exFdNoLife with lifetimes := some lf } = some r2 →
      ∃ r, importFunction exEnv [1] exFdNoLife = some r ∧
        r.errors = r2.errors ∧ (r.item.isSome ↔ r2.item.isSome)) :=
  c9_oracle_failure_graceful exEnv [1] exFdNoLife rfl rfl rfl rfl
    (fun m hm => by cases hm)

theorem forall2_mem_left {α β : Type} {R : α → β → Prop} :
    ∀ {l1 : List α} {l2 : List β}, List.Forall₂ R l1 l2 →
      ∀ a ∈ l1, ∃ b ∈ l2, R a b := by
  intro l1 l2 h
  induction h with
  | nil => intro a ha; cases ha
  | cons hR _ ih =>
    intro a ha
    rcases List.mem_cons.mp ha with rfl | ha2
    · exact ⟨_, List.mem_cons_self _ _, hR⟩
    · obtain ⟨b, hb, hab⟩ := ih a ha2
      exact ⟨b, List.mem_cons_of_mem _ hb, hab⟩

/-- The lifetimes the lifetime-parameter loop emits are exactly, in
order, the collected lifetimes it was fed. -/
theorem buildLifetimeParams_ids (names : List (Nat × String)) :
    ∀ (ls : List Nat) (lps : List LifetimeIR),
      buildLifetimeParams names ls = some lps →
      lps.map (fun l => l.id) = ls := by
  intro ls
  induction ls with
  | nil =>
    intro lps h
    simp only [buildLifetimeParams, Option.some.injEq] at h
    subst h
    rfl
  | cons l ls ih =>
    intro lps h
    simp only [buildLifetimeParams] at h
    cases hlk : List.lookup l names with
    | none =>
      rw [hlk] at h
      cases h
    | some n =>
      rw [hlk] at h
      dsimp only at h
      cases hb : buildLifetimeParams names ls with
      | none =>
        rw [hb] at h
        cases h
      | some ls0 =>
        rw [hb] at h
        dsimp only at h
        simp only [Option.some.injEq] at h
        subst h
        rw [List.map_cons, ih ls0 hb]

theorem mem_insertLifetime (all : List Nat) (l i : Nat) :
    i ∈ insertLifetime all l ↔ i ∈ all ∨ i = l := by
  unfold insertLifetime
  split
  · rename_i hc
    constructor
    · exact Or.inl
    · rintro (h | rfl)
      · exact h
      · exact (contains_iff_memNat all _).mp hc
  · simp [List.mem_append]

theorem mem_insertLifetimes (i : Nat) : ∀ (ls all : List Nat),
    i ∈ insertLifetimes all ls ↔ i ∈ all ∨ i ∈ ls := by
  intro ls
  induction ls with
  | nil =>
    intro all
    simp [insertLifetimes]
  | cons l ls ih =>
    intro all
    show i ∈ insertLifetimes (insertLifetime all l) ls ↔ _
    rw [ih, mem_insertLifetime, List.mem_cons]
    exact or_assoc

theorem mem_foldl_insertLifetimes (i : Nat) :
    ∀ (lss : List (List Nat)) (a : List Nat),
      i ∈ lss.foldl insertLifetimes a ↔ i ∈ a ∨ ∃ ls ∈ lss, i ∈ ls := by
  intro lss
  induction lss with
  | nil =>
    intro a
    simp
  | cons ls lss ih =>
    intro a
    simp only [List.foldl_cons]
    rw [ih, mem_insertLifetimes, or_assoc]
    apply or_congr_right
    constructor
    · rintro (hl | ⟨ls2, hls2, hi⟩)
      · exact ⟨ls, List.mem_cons_self _ _, hl⟩
      · exact ⟨ls2, List.mem_cons_of_mem _ hls2, hi⟩
    · rintro ⟨ls2, hls2, hi⟩
      rcases List.mem_cons.mp hls2 with rfl | h2
      · exact Or.inl hi
      · exact Or.inr ⟨ls2, h2, hi⟩

/-- The ids collected into `all_lifetimes`, characterized: the `this`
lifetimes of an instance method, any parameter's lifetimes, and the
return lifetimes. -/
theorem mem_collectAllLifetimes (fd : FunctionDecl)
    (lf : FunctionLifetimes) (hor : fd.lifetimes = some lf) (i : Nat) :
    i ∈ collectAllLifetimes fd ↔
      ((∃ m, fd.method = some m ∧ m.isInstance = true ∧
          i ∈ lf.thisLifetimes) ∨
        (∃ ls ∈ lf.paramLifetimes, i ∈ ls) ∨ i ∈ lf.returnLifetimes) := by
  unfold collectAllLifetimes
  rw [hor]
  dsimp only
  rw [mem_insertLifetimes, mem_foldl_insertLifetimes, or_assoc]
  apply or_congr_left
  cases hm : fd.method with
  | none =>
    simp only [List.not_mem_nil, false_iff]
    rintro ⟨m, hm2, _, _⟩
    cases hm2
  | some m =>
    dsimp only
    cases hinst : m.isInstance with
    | false =>
      simp only [Bool.false_eq_true, if_false, List.not_mem_nil, false_iff]
      rintro ⟨m2, hm2, hinst2, _⟩
      injection hm2 with hm2
      subst hm2
      rw [hinst] at hinst2
      cases hinst2
    | true =>
      simp only [if_true]
      rw [mem_insertLifetimes]
      simp only [List.not_mem_nil, false_or]
      constructor
      · intro hi
        exact ⟨m, rfl, hinst, hi⟩
      · rintro ⟨m2, hm2, _, hi⟩
        exact hi

/-- When the conversion is fed exactly as many lifetime slots as its
pointer/reference spine is deep, it consumes them all: the result's
lifetime ids are exactly the slots, innermost first. -/
theorem convertTypeCore_exact (env : Env) (known : List Nat) :
    ∀ (qt : QualType) (ls : List Nat) (nb : Bool) (p : MappedType),
      ls.length = spineDepth qt →
      convertTypeCore env known qt (some ls) nb = .ok (some p) →
      p.lifetimeIds = ls.reverse := by
  intro qt
  induction qt with
  | pointer pointee c u q ih =>
    intro ls nb p hlen h
    simp only [convertTypeCore] at h
    simp only [spineDepth] at hlen
    cases hlk : List.lookup u wellKnownTypes with
    | some rs =>
      rw [hlk] at h
      dsimp only at h
      rw [hlk] at hlen
      simp only [Option.isSome_some, if_true] at hlen
      have hls : ls = [] := List.length_eq_zero.mp hlen
      subst hls
      simp only [Except.ok.injEq, Option.some.injEq] at h
      subst h
      rfl
    | none =>
      rw [hlk] at h hlen
      simp only [Option.isSome_none, Bool.false_eq_true, if_false] at hlen
      dsimp only at h
      have hne : ls ≠ [] := by
        intro he
        subst he
        simp at hlen
      obtain ⟨lt, hgl⟩ : ∃ lt, ls.getLast? = some lt := by
        cases hq : ls.getLast? with
        | none => exact absurd (List.getLast?_eq_none_iff.mp hq) hne
        | some lt => exact ⟨lt, rfl⟩
      rw [hgl] at h
      dsimp only at h
      cases hin : convertTypeCore env known pointee (some ls.dropLast)
          true with
      | error e =>
        rw [hin] at h
        cases h
      | ok xin =>
        rw [hin] at h
        cases xin with
        | none =>
          dsimp only at h
          simp at h
        | some pin =>
          dsimp only at h
          simp only [Except.ok.injEq, Option.some.injEq] at h
          subst h
          have hlen2 : ls.dropLast.length = spineDepth pointee := by
            rw [List.length_dropLast, hlen]
            rfl
          have hids := ih ls.dropLast true pin hlen2 hin
          obtain ⟨ys, rfl⟩ := List.getLast?_eq_some_iff.mp hgl
          simp only [MappedType.lifetimeIds, lifetimeIds_setCcConst, hids]
          simp
  | lvalueRef pointee c u q ih =>
    intro ls nb p hlen h
    simp only [convertTypeCore] at h
    simp only [spineDepth] at hlen
    cases hlk : List.lookup u wellKnownTypes with
    | some rs =>
      rw [hlk] at h
      dsimp only at h
      rw [hlk] at hlen
      simp only [Option.isSome_some, if_true] at hlen
      have hls : ls = [] := List.length_eq_zero.mp hlen
      subst hls
      simp only [Except.ok.injEq, Option.some.injEq] at h
      subst h
      rfl
    | none =>
      rw [hlk] at h hlen
      simp only [Option.isSome_none, Bool.false_eq_true, if_false] at hlen
      dsimp only at h
      have hne : ls ≠ [] := by
        intro he
        subst he
        simp at hlen
      obtain ⟨lt, hgl⟩ : ∃ lt, ls.getLast? = some lt := by
        cases hq : ls.getLast? with
        | none => exact absurd (List.getLast?_eq_none_iff.mp hq) hne
        | some lt => exact ⟨lt, rfl⟩
      rw [hgl] at h
      dsimp only at h
      cases hin : convertTypeCore env known pointee (some ls.dropLast)
          true with
      | error e =>
        rw [hin] at h
        cases h
      | ok xin =>
        rw [hin] at h
        cases xin with
        | none =>
          dsimp only at h
          simp at h
        | some pin =>
          dsimp only at h
          simp only [Except.ok.injEq, Option.some.injEq] at h
          subst h
          have hlen2 : ls.dropLast.length = spineDepth pointee := by
            rw [List.length_dropLast, hlen]
            rfl
          have hids := ih ls.dropLast true pin hlen2 hin
          obtain ⟨ys, rfl⟩ := List.getLast?_eq_some_iff.mp hgl
          simp only [MappedType.lifetimeIds, lifetimeIds_setCcConst, hids]
          simp
  | builtin k c u q =>
    intro ls nb p hlen h
    simp only [spineDepth] at hlen
    have hls : ls = [] := List.length_eq_zero.mp hlen
    subst hls
    simp only [convertTypeCore] at h
    cases hlk : List.lookup u wellKnownTypes with
    | some rs =>
      rw [hlk] at h
      simp only [Except.ok.injEq, Option.some.injEq] at h
      subst h
      rfl
    | none =>
      rw [hlk] at h
      dsimp only at h
      cases k with
      | boolKind =>
        simp only [Except.ok.injEq, Option.some.injEq] at h
        subst h
        rfl
      | floatKind =>
        simp only [Except.ok.injEq, Option.some.injEq] at h
        subst h
        rfl
      | doubleKind =>
        simp only [Except.ok.injEq, Option.some.injEq] at h
        subst h
        rfl
      | voidKind =>
        simp only [Except.ok.injEq, Option.some.injEq] at h
        subst h
        rfl
      | integer s sz =>
        dsimp only at h
        split at h
        · simp only [Except.ok.injEq, Option.some.injEq] at h
          subst h
          rfl
        · simp at h
      | otherBuiltin => simp at h
  | tagType d c u q =>
    intro ls nb p hlen h
    simp only [spineDepth] at hlen
    have hls : ls = [] := List.length_eq_zero.mp hlen
    subst hls
    simp only [convertTypeCore] at h
    cases hlk : List.lookup u wellKnownTypes with
    | some rs =>
      rw [hlk] at h
      simp only [Except.ok.injEq, Option.some.injEq] at h
      subst h
      rfl
    | none =>
      rw [hlk] at h
      dsimp only at h
      split at h
      · cases henv : env.translatedId d with
        | some tid =>
          rw [henv] at h
          simp only [Except.ok.injEq, Option.some.injEq] at h
          subst h
          rfl
        | none =>
          rw [henv] at h
          simp at h
      · simp at h
  | typedefType d c u q =>
    intro ls nb p hlen h
    simp only [spineDepth] at hlen
    have hls : ls = [] := List.length_eq_zero.mp hlen
    subst hls
    simp only [convertTypeCore] at h
    cases hlk : List.lookup u wellKnownTypes with
    | some rs =>
      rw [hlk] at h
      simp only [Except.ok.injEq, Option.some.injEq] at h
      subst h
      rfl
    | none =>
      rw [hlk] at h
      dsimp only at h
      split at h
      · cases henv : env.translatedId d with
        | some tid =>
          rw [henv] at h
          simp only [Except.ok.injEq, Option.some.injEq] at h
          subst h
          rfl
        | none =>
          rw [henv] at h
          simp at h
      · simp at h
  | otherType c u q =>
    intro ls nb p hlen h
    simp only [spineDepth] at hlen
    have hls : ls = [] := List.length_eq_zero.mp hlen
    subst hls
    simp only [convertTypeCore] at h
    cases hlk : List.lookup u wellKnownTypes with
    | some rs =>
      rw [hlk] at h
      simp only [Except.ok.injEq, Option.some.injEq] at h
      subst h
      rfl
    | none =>
      rw [hlk] at h
      simp at h

/-- `ConvertType` consumes exactly its lifetime slots when fed as many
as the spine is deep. -/
theorem convertType_exact (env : Env) (known : List Nat) (qt : QualType)
    (ls : List Nat) (nb : Bool) (t : MappedType)
    (hlen : ls.length = spineDepth qt)
    (h : convertType env known qt (some ls) nb = .ok t) :
    t.lifetimeIds = ls.reverse := by
  unfold convertType at h
  cases hc : convertTypeCore env known qt (some ls) nb with
  | error e =>
    rw [hc] at h
    cases h
  | ok x =>
    rw [hc] at h
    cases x with
    | none =>
      dsimp only at h
      cases h
    | some p =>
      dsimp only at h
      simp only [Except.ok.injEq] at h
      subst h
      rw [lifetimeIds_setCcConst]
      exact convertTypeCore_exact env known qt ls nb p hlen hc

/-- Pointwise consequence of a fully successful parameter loop under
slot-exactness: each emitted parameter's lifetime ids are its slot's,
reversed. -/
theorem params_ids_of_exact (env : Env) (known : List Nat) :
    ∀ (ps : List ParamDecl) (lss : List (List Nat))
      (params1 : List FuncParam),
      List.Forall₂ (fun (pr : ParamDecl × Option (List Nat))
          (fp : FuncParam) =>
        convertType env known pr.1.type pr.2 true = .ok fp.type)
        (ps.zip (lss.map some)) params1 →
      List.Forall₂ (fun (p : ParamDecl) (ls : List Nat) =>
        ls.length = spineDepth p.type) ps lss →
      List.Forall₂ (fun (ls : List Nat) (fp : FuncParam) =>
        fp.type.lifetimeIds = ls.reverse) lss params1 := by
  intro ps
  induction ps with
  | nil =>
    intro lss params1 h1 h2
    cases h2
    cases h1
    exact .nil
  | cons p ps ih =>
    intro lss params1 h1 h2
    cases h2 with
    | cons hS h2 =>
      rename_i ls lss2
      simp only [List.map_cons, List.zip_cons_cons] at h1
      cases h1 with
      | cons hR h1 =>
        rename_i fp params2
        exact .cons (convertType_exact env known p.type ls true fp.type hS
          hR) (ih lss2 params2 h1 h2)

/-- With the oracle failed, no emitted parameter (synthesized `__this`
included) carries a lifetime id. -/
theorem noOracle_params_no_ids (env : Env) (known : List Nat)
    (fd : FunctionDecl) (params0 : List FuncParam)
    (pairs : List (ParamDecl × Option (List Nat)))
    (params1 : List FuncParam)
    (hor : fd.lifetimes = none)
    (hts : thisStep env known fd = some (params0, []))
    (hpp : paramPairs fd = some pairs)
    (hproc : processParams env known pairs 0 = some (params1, [])) :
    ∀ p ∈ params0 ++ params1, p.type.lifetimeIds = [] := by
  intro p hp
  rcases List.mem_append.mp hp with hp0 | hp1
  · rcases thisStep_cases env known fd params0 [] hts with
      ⟨_, hps, _⟩ | ⟨m, _, _, hps, _⟩ |
      ⟨m, t, _, _, hcv, hps, _⟩ | ⟨m, msg, pl, _, _, _, _, hbad⟩
    · rw [hps] at hp0
      cases hp0
    · rw [hps] at hp0
      cases hp0
    · rw [hps] at hp0
      rcases List.mem_singleton.mp hp0 with rfl
      rw [hor] at hcv
      simp only [Option.map_none'] at hcv
      exact convertType_none_lifetimeIds env known m.thisType false t hcv
    · cases hbad
  · rw [paramPairs_of_no_oracle fd hor] at hpp
    simp only [Option.some.injEq] at hpp
    subst hpp
    have hall := processParams_ok_forall2 env known _ 0 params1 hproc
    obtain ⟨⟨pd, slot⟩, hmem, hcv⟩ := forall2_mem_right hall p hp1
    obtain ⟨q, _, hq⟩ := List.mem_map.mp hmem
    injection hq with hq1 hq2
    subst hq1
    subst hq2
    exact convertType_none_lifetimeIds env known q.type true p.type hcv

/-- C5: for every emitted `Func` item — assuming the lifetime oracle's
output is well-formed, i.e. each lifetime list is exactly as long as
the pointer/reference spine of its type — the `lifetime_params` list
is sorted ascending by lifetime name, and the set of lifetime ids it
contains equals the set of lifetime ids referenced anywhere in the
function's signature: the synthesized `__this` parameter's type, every
parameter type, and the return type. -/
theorem c5_lifetime_params_sorted_complete (env : Env) (known : List Nat)
    (fd : FunctionDecl) (r : LookupResult) (f : FuncIR)
    (h : importFunction env known fd = some r)
    (hf : r.item = some (.funcItem f))
    (hexact : ∀ lf, fd.lifetimes = some lf →
      (∀ m, fd.method = some m → m.isInstance = true →
        lf.thisLifetimes.length = spineDepth m.thisType) ∧
      List.Forall₂ (fun (p : ParamDecl) (ls : List Nat) =>
        ls.length = spineDepth p.type) fd.params lf.paramLifetimes ∧
      lf.returnLifetimes.length = spineDepth fd.returnType) :
    f.lifetimeParams.Pairwise
      (fun a b : LifetimeIR => a.name ≤ b.name) ∧
    ∀ i, (∃ lp ∈ f.lifetimeParams, lp.id = i) ↔
      ((∃ p ∈ f.params, i ∈ p.type.lifetimeIds) ∨
        i ∈ f.returnType.lifetimeIds) := by
  obtain ⟨params0, pairs, params1, rt, lps, nm, hts, hpp, hproc, habi,
    hconv, hlps, hnm, hfeq⟩ :=
    importFunction_func_inversion env known fd r f h hf
  subst hfeq
  dsimp only
  constructor
  · haveI ht : IsTotal LifetimeIR (fun a b : LifetimeIR => a.name ≤ b.name) :=
      ⟨fun a b => le_total a.name b.name⟩
    haveI htr : IsTrans LifetimeIR (fun a b : LifetimeIR => a.name ≤ b.name) :=
      ⟨fun a b c hab hbc => le_trans hab hbc⟩
    exact List.sorted_insertionSort _ lps
  · intro i
    have hperm := List.perm_insertionSort
      (fun a b : LifetimeIR => a.name ≤ b.name) lps
    have hids := buildLifetimeParams_ids fd.lifetimeNames
      (collectAllLifetimes fd) lps hlps
    have hmemsort : (∃ lp ∈ lps.insertionSort
        (fun a b : LifetimeIR => a.name ≤ b.name), lp.id = i) ↔
        ∃ lp ∈ lps, lp.id = i := by
      constructor
      · rintro ⟨lp, hm, he⟩
        exact ⟨lp, hperm.mem_iff.mp hm, he⟩
      · rintro ⟨lp, hm, he⟩
        exact ⟨lp, hperm.mem_iff.mpr hm, he⟩
    rw [hmemsort]
    have hcoll : (∃ lp ∈ lps, lp.id = i) ↔
        i ∈ collectAllLifetimes fd := by
      rw [← hids]
      constructor
      · rintro ⟨lp, hm, rfl⟩
        exact List.mem_map.mpr ⟨lp, hm, rfl⟩
      · intro hm
        obtain ⟨lp, hm2, he⟩ := List.mem_map.mp hm
        exact ⟨lp, hm2, he⟩
    rw [hcoll]
    have hsplit : (∃ p ∈ params0 ++ params1, i ∈ p.type.lifetimeIds) ↔
        ((∃ p ∈ params0, i ∈ p.type.lifetimeIds) ∨
          (∃ p ∈ params1, i ∈ p.type.lifetimeIds)) := by
      constructor
      · rintro ⟨p, hp, hi⟩
        rcases List.mem_append.mp hp with h2 | h2
        · exact Or.inl ⟨p, h2, hi⟩
        · exact Or.inr ⟨p, h2, hi⟩
      · rintro (⟨p, hp, hi⟩ | ⟨p, hp, hi⟩)
        · exact ⟨p, List.mem_append_left _ hp, hi⟩
        · exact ⟨p, List.mem_append_right _ hp, hi⟩
    rw [hsplit]
    cases horc : fd.lifetimes with
    | none =>
      rw [collectAllLifetimes_none fd horc]
      have hnoids := noOracle_params_no_ids env known fd params0 pairs
        params1 horc hts hpp hproc
      rw [horc] at hconv
      simp only [Option.map_none'] at hconv
      have hrt := convertType_none_lifetimeIds env known fd.returnType
        true rt hconv
      simp only [List.not_mem_nil, false_iff]
      rintro ((⟨p, hp, hi⟩ | ⟨p, hp, hi⟩) | hi)
      · rw [hnoids p (List.mem_append_left _ hp)] at hi
        cases hi
      · rw [hnoids p (List.mem_append_right _ hp)] at hi
        cases hi
      · rw [hrt] at hi
        cases hi
    | some lf =>
      obtain ⟨hthis, hparams, hret⟩ := hexact lf horc
      rw [mem_collectAllLifetimes fd lf horc i]
      rw [horc] at hconv
      simp only [Option.map_some'] at hconv
      have hrtids := convertType_exact env known fd.returnType
        lf.returnLifetimes true rt hret hconv
      obtain ⟨hlen, hpairs⟩ := paramPairs_some_oracle fd lf pairs horc hpp
      subst hpairs
      have hall := processParams_ok_forall2 env known _ 0 params1 hproc
      have htrans := params_ids_of_exact env known fd.params
        lf.paramLifetimes params1 hall hparams
      have hA : (∃ m, fd.method = some m ∧ m.isInstance = true ∧
          i ∈ lf.thisLifetimes) ↔
          (∃ p ∈ params0, i ∈ p.type.lifetimeIds) := by
        rcases thisStep_cases env known fd params0 [] hts with
          ⟨hm0, hps, _⟩ | ⟨m, hm0, hinst, hps, _⟩ |
          ⟨m, t, hm0, hinst, hcv, hps, _⟩ |
          ⟨m, msg, pl, _, _, _, _, hbad⟩
        · subst hps
          constructor
          · rintro ⟨m, hm, _, _⟩
            rw [hm0] at hm
            cases hm
          · rintro ⟨p, hp, _⟩
            cases hp
        · subst hps
          constructor
          · rintro ⟨m2, hm2, hinst2, _⟩
            rw [hm0] at hm2
            injection hm2 with hm2
            subst hm2
            rw [hinst] at hinst2
            cases hinst2
          · rintro ⟨p, hp, _⟩
            cases hp
        · subst hps
          rw [horc] at hcv
          simp only [Option.map_some'] at hcv
          have htids := convertType_exact env known m.thisType
            lf.thisLifetimes false t (hthis m hm0 hinst) hcv
          constructor
          · rintro ⟨m2, hm2, _, hi⟩
            rw [hm0] at hm2
            injection hm2 with hm2
            subst hm2
            refine ⟨⟨t, "__this"⟩, List.mem_singleton_self _, ?_⟩
            dsimp only
            rw [htids]
            exact List.mem_reverse.mpr hi
          · rintro ⟨p, hp, hi⟩
            rcases List.mem_singleton.mp hp with rfl
            dsimp only at hi
            rw [htids] at hi
            exact ⟨m, hm0, hinst, List.mem_reverse.mp hi⟩
        · cases hbad
      have hB : (∃ ls ∈ lf.paramLifetimes, i ∈ ls) ↔
          (∃ p ∈ params1, i ∈ p.type.lifetimeIds) := by
        constructor
        · rintro ⟨ls, hls, hi⟩
          obtain ⟨fp, hfp, hid⟩ := forall2_mem_left htrans ls hls
          refine ⟨fp, hfp, ?_⟩
          rw [hid]
          exact List.mem_reverse.mpr hi
        · rintro ⟨fp, hfp, hi⟩
          obtain ⟨ls, hls, hid⟩ := forall2_mem_right htrans fp hfp
          rw [hid] at hi
          exact ⟨ls, hls, List.mem_reverse.mp hi⟩
      have hC : i ∈ lf.returnLifetimes ↔ i ∈ rt.lifetimeIds := by
        rw [hrtids, List.mem_reverse]
      rw [← hA, ← hB, ← hC]
      exact or_assoc.symm

/-- The `Func` item the import of `exFdLife` emits. -/
def exFuncG : FuncIR :=
  { name := .ident "g"
    owningTarget := "//foo:bar"
    docComment := none
    mangledName := "_g"
    returnType := .simple "i32" "int" false
    params := [⟨.lvalueRefTo (.simple "i32" "int" false) (some 10) false,
      "p1"⟩]
    lifetimeParams := [⟨"a", 10⟩]
    isInline := false
    memberFuncMetadata := none
    sourceLoc := exLoc }

/-- C5 witness: the free function `int g(int &p1)` with inferred
lifetime `a`. -/
theorem c5_lifetime_params_sorted_complete_witness :
    exFuncG.lifetimeParams.Pairwise
      (fun a b : LifetimeIR => a.name ≤ b.name) ∧
    ∀ i, (∃ lp ∈ exFuncG.lifetimeParams, lp.id = i) ↔
      ((∃ p ∈ exFuncG.params, i ∈ p.type.lifetimeIds) ∨
        i ∈ exFuncG.returnType.lifetimeIds) :=
  c5_lifetime_params_sorted_complete exEnv [1] exFdLife
    ⟨some (.funcItem exFuncG), []⟩ exFuncG rfl rfl
    (fun lf hlf => by
      have h2 : some (⟨[], [[10]], []⟩ : FunctionLifetimes) = some lf := hlf
      injection h2 with h2
      subst h2
      refine ⟨?_, ?_, by decide⟩
      · intro m hm
        exact Option.noConfusion hm
      · exact .cons (by decide) .nil)

/-- Characterization of the `is_less_than` comparator: invalid ranges
first (among themselves by local order), then lexicographically by
begin position, end position, local order. -/
theorem itemLess_iff (a b : SourceRange × Nat) :
    itemLess a b = true ↔
      ((a.1.valid = false ∧ b.1.valid = true) ∨
       (a.1.valid = false ∧ b.1.valid = false ∧ a.2 < b.2) ∨
       (a.1.valid = true ∧ b.1.valid = true ∧
         (a.1.rangeBegin < b.1.rangeBegin ∨
          (a.1.rangeBegin = b.1.rangeBegin ∧
            (a.1.rangeEnd < b.1.rangeEnd ∨
             (a.1.rangeEnd = b.1.rangeEnd ∧ a.2 < b.2)))))) := by
  unfold itemLess
  cases hva : a.1.valid <;> cases hvb : b.1.valid <;>
    by_cases h1 : a.1.rangeBegin = b.1.rangeBegin <;>
    by_cases h2 : a.1.rangeEnd = b.1.rangeEnd <;>
    simp [h1, h2]

theorem itemLess_asymm (a b : SourceRange × Nat)
    (h : itemLess a b = true) : itemLess b a = false := by
  by_contra h2
  have h2 : itemLess b a = true := by
    cases hx : itemLess b a
    · exact absurd hx h2
    · rfl
  rw [itemLess_iff] at h h2
  cases hva : a.1.valid <;> cases hvb : b.1.valid <;>
    simp [hva, hvb] at h h2 <;> omega

theorem itemLess_le_trans (a b c : SourceRange × Nat)
    (h1 : itemLess b a = false) (h2 : itemLess c b = false) :
    itemLess c a = false := by
  by_contra hx
  have hx : itemLess c a = true := by
    cases hy : itemLess c a
    · exact absurd hy hx
    · rfl
  have h1x : ¬ itemLess b a = true := by simp [h1]
  have h2x : ¬ itemLess c b = true := by simp [h2]
  rw [itemLess_iff] at hx h1x h2x
  cases hva : a.1.valid <;> cases hvb : b.1.valid <;>
    cases hvc : c.1.valid <;> simp [hva, hvb, hvc] at hx h1x h2x <;> omega

theorem orderedItemLE_total (a b : OrderedItem) :
    orderedItemLE a b = true ∨ orderedItemLE b a = true := by
  cases hx : itemLess (b.1, b.2.1) (a.1, a.2.1) with
  | false => exact Or.inl (by simp [orderedItemLE, orderedItemLess, hx])
  | true =>
    have hy := itemLess_asymm _ _ hx
    exact Or.inr (by simp [orderedItemLE, orderedItemLess, hy])

theorem orderedItemLE_trans (a b c : OrderedItem)
    (h1 : orderedItemLE a b = true) (h2 : orderedItemLE b c = true) :
    orderedItemLE a c = true := by
  simp only [orderedItemLE, orderedItemLess, Bool.not_eq_true'] at h1 h2 ⊢
  exact itemLess_le_trans (a.1, a.2.1) (b.1, b.2.1) (c.1, c.2.1) h1 h2

/-- C6: the emitted IR item list is the stable sort of the assembled
items by the `is_less_than` key. Spelled out: (1) `local_order` is 0
for a non-nested record, 1 for a record nested in a record, 2/3/4/5
for default/copy/move/other constructors, 6 for a destructor, 7 for
anything else; (2) the assembled list gives free comments local order
0; (3) the comparator puts invalid ranges first (among themselves by
local order) and otherwise compares (begin, end, local order)
lexicographically; (4) the output projects a permutation of the
assembled items that is sorted under the comparator's non-strict
companion, preserving the assembly order of every pair the comparator
does not require to swap (stability). -/
theorem c6_stable_item_order (entries : List CachedEntry)
    (comments : List FreeComment) :
    (∀ pr, localOrder (.recordKind pr) = if pr then 1 else 0) ∧
    (∀ d cp mv, localOrder (.ctorKind d cp mv) =
      if d then 2 else if cp then 3 else if mv then 4 else 5) ∧
    localOrder .dtorKind = 6 ∧
    localOrder .otherKind = 7 ∧
    assembleItems entries comments =
      (entries.map entryItems).flatten ++
        comments.map (fun c =>
          (c.sourceRange, 0, Item.commentItem ⟨c.text⟩)) ∧
    (∀ a b : OrderedItem,
      orderedItemLess a b = true ↔
        ((a.1.valid = false ∧ b.1.valid = true) ∨
         (a.1.valid = false ∧ b.1.valid = false ∧ a.2.1 < b.2.1) ∨
         (a.1.valid = true ∧ b.1.valid = true ∧
           (a.1.rangeBegin < b.1.rangeBegin ∨
            (a.1.rangeBegin = b.1.rangeBegin ∧
              (a.1.rangeEnd < b.1.rangeEnd ∨
               (a.1.rangeEnd = b.1.rangeEnd ∧ a.2.1 < b.2.1))))))) ∧
    (∃ sorted : List OrderedItem,
      importOutput entries comments = sorted.map (fun x => x.2.2) ∧
      sorted.Perm (assembleItems entries comments) ∧
      List.Sorted (fun a b => orderedItemLE a b = true) sorted ∧
      (∀ a b : OrderedItem, orderedItemLE a b = true →
        List.Sublist [a, b] (assembleItems entries comments) →
        List.Sublist [a, b] sorted)) := by
  refine ⟨fun pr => rfl, fun d cp mv => rfl, rfl, rfl, rfl, ?_, ?_⟩
  · intro a b
    exact itemLess_iff (a.1, a.2.1) (b.1, b.2.1)
  · refine ⟨(assembleItems entries comments).insertionSort
      (fun a b => orderedItemLE a b = true), rfl, ?_, ?_, ?_⟩
    · exact List.perm_insertionSort _ _
    · haveI ht : IsTotal OrderedItem
          (fun a b => orderedItemLE a b = true) :=
        ⟨orderedItemLE_total⟩
      haveI htr : IsTrans OrderedItem
          (fun a b => orderedItemLE a b = true) :=
        ⟨orderedItemLE_trans⟩
      exact List.sorted_insertionSort _ _
    · intro a b hab hsub
      exact List.pair_sublist_insertionSort hab hsub

end Crubit
